import Mathlib

/-!
Shallow embedding of the romst indexing core (src/data/writer/sqlite.rs and
src/data/reader/mod.rs): the streaming index writer (id allocation, write
buffer, batched flush, parent back-fill) and the reader-side helpers
(FileChecks mask computation, the get_game_set default method).

Machine integers: Rust u32/u16 counters are modelled as Nat with explicit
wrap-around modulo 2^32 / 2^16 at the operations where the source performs
u32 arithmetic or `as u16` casts.  SQLite tables are modelled as Lean lists
of row structures; a transaction that errors out before commit leaves the
database value unchanged.
-/

/-- Digest tuple: the deduplication key of a ROM entry.  Modelled from the
spec: DataFile identity is by digest tuple (sha1, md5, crc) plus size, not
by name (the Hash/Eq derivation of DataFile lives in the data/models file,
which is not part of the provided sources). -/
structure DigestTuple where
  sha1 : Option String
  md5 : Option String
  crc : Option String
  size : Nat
deriving DecidableEq, Repr

/-- Modelled from the spec: a ROM entry as produced by the DAT parser; a
logical name, three optional content digests, a size and an optional status
(the DataFile struct itself lives in data/models/file.rs, not in the
provided sources; its fields are those read by the writer's INSERT). -/
structure DataFile where
  name : String
  sha1 : Option String
  md5 : Option String
  crc : Option String
  size : Nat
  status : Option String
deriving DecidableEq, Repr

/-- Deduplication key of a DataFile: its digest tuple plus size. -/
def DataFile.key (f : DataFile) : DigestTuple :=
  ⟨f.sha1, f.md5, f.crc, f.size⟩

/-- Modelled from the spec: a game record, with the fields the writer
persists (data/models/game.rs is not in the provided sources; the fields
are those the writer's INSERT statements read). -/
structure Game where
  name : String
  clone_of : Option String
  rom_of : Option String
  source_file : Option String
  sample_of : Option String
  info_description : Option String
  info_year : Option String
  info_manufacturer : Option String
deriving DecidableEq, Repr

/-- Row of the `games` table: the eight columns created by
create_table_games. -/
structure GameRow where
  name : String
  clone_of : Option String
  rom_of : Option String
  source_file : Option String
  sample_of : Option String
  info_desc : Option String
  info_year : Option String
  info_manuf : Option String
deriving DecidableEq, Repr

/-- Row of the `roms` table: id primary key plus digests, size and status. -/
structure RomRow where
  id : Nat
  sha1 : Option String
  md5 : Option String
  crc : Option String
  size : Nat
  status : Option String
deriving DecidableEq, Repr

/-- Digest tuple stored in a roms-table row. -/
def RomRow.tuple (r : RomRow) : DigestTuple :=
  ⟨r.sha1, r.md5, r.crc, r.size⟩

/-- Row of the `game_roms` table: (game_name, rom_id, name) primary key and
the parent column back-filled during finish. -/
structure GameRomRow where
  game_name : String
  rom_id : Nat
  name : String
  parent : Option String
deriving DecidableEq, Repr

/-- The relational store built by the writer: the tables created by
create_schema that the ingest path writes to (info, disks and game_disks are
created but never written by the provided ingest path and carry no claim
content beyond the devices table, which is kept). -/
structure DBState where
  roms : List RomRow
  games : List GameRow
  game_roms : List GameRomRow
  samples : List (String × String)
  devices : List (String × String)
deriving DecidableEq, Repr

/-- Empty database, as left by init()/create_schema. -/
def DBState.empty : DBState :=
  ⟨[], [], [], [], []⟩

/-- IdsCounter from the writer: two u32 counters (rom, disk). -/
structure IdsCounter where
  rom : Nat
  disk : Nat
deriving DecidableEq, Repr

/-- IdsCounter::new starts both counters at 0. -/
def IdsCounter.new : IdsCounter :=
  ⟨0, 0⟩

/-- IdsCounter::get_next_rom returns the current rom counter and increments
it (u32 arithmetic, hence the wrap modulo 2^32). -/
def IdsCounter.get_next_rom (c : IdsCounter) : Nat × IdsCounter :=
  (c.rom, { c with rom := (c.rom + 1) % 4294967296 })

/-- Write buffer of the DBWriter: its own IdsCounter, games by name, the
rom buffer mapping DataFile (keyed by digest tuple) to assigned id, the
per-game (rom_id, local_name) lists, per-sample-set sample sets, and
per-game device refs.  The Rust HashMaps are modelled as association lists
whose insert replaces an existing binding. -/
structure Buffer where
  ids : IdsCounter
  games : List (String × Game)
  roms : List (DataFile × Nat)
  game_roms : List (String × List (Nat × String))
  samples : List (String × List String)
  device_refs : List (String × List String)
deriving DecidableEq, Repr

/-- Buffer::new. -/
def Buffer.new : Buffer :=
  ⟨IdsCounter.new, [], [], [], [], []⟩

/-- HashMap::insert on an association list: replace the binding if the key
is present, append otherwise. -/
def upsertAssoc {β : Type} (l : List (String × β)) (k : String) (v : β) :
    List (String × β) :=
  if l.any (fun p => p.1 = k) then
    l.map (fun p => if p.1 = k then (k, v) else p)
  else l ++ [(k, v)]

/-- Buffer::len: number of buffered games plus number of buffered sample
sets. -/
def Buffer.len (b : Buffer) : Nat :=
  b.games.length + b.samples.length

/-- Buffer::add_game: HashMap insert, so a repeated game name silently
replaces the earlier game. -/
def Buffer.add_game (b : Buffer) (game_name : String) (game : Game) : Buffer :=
  { b with games := upsertAssoc b.games game_name game }

/-- Loop body of Buffer::add_roms: reuse the buffered id when the rom
buffer already holds the rom's digest key, otherwise allocate the next id
and insert the rom into the buffer. -/
def addRomsStep (acc : List (Nat × DataFile) × Buffer) (rom : DataFile) :
    List (Nat × DataFile) × Buffer :=
  match acc.2.roms.find? (fun p => p.1.key = rom.key) with
  | some p => (acc.1 ++ [(p.2, rom)], acc.2)
  | none =>
      let idc := acc.2.ids.get_next_rom
      (acc.1 ++ [(idc.1, rom)],
        { acc.2 with ids := idc.2, roms := acc.2.roms ++ [(rom, idc.1)] })

/-- Buffer::add_roms: for each incoming rom, reuse the buffered id when the
rom buffer already holds its digest key, otherwise allocate the next id and
insert it; returns the (id, rom) pairs in input order. -/
def Buffer.add_roms (b : Buffer) (roms : List DataFile) :
    List (Nat × DataFile) × Buffer :=
  roms.foldl addRomsStep ([], b)

/-- Buffer::add_roms_for_game: HashMap insert of the game's
(rom_id, local_name) list. -/
def Buffer.add_roms_for_game (b : Buffer) (game_name : String)
    (rom_ids : List (Nat × String)) : Buffer :=
  { b with game_roms := upsertAssoc b.game_roms game_name rom_ids }

/-- HashSet::extend modelled on lists: append each element not already
present. -/
def hsExtend (cur : List String) (ss : List String) : List String :=
  ss.foldl (fun acc s => if s ∈ acc then acc else acc ++ [s]) cur

/-- Buffer::add_sample_pack: entry(..).or_insert(HashSet::new()).extend. -/
def Buffer.add_sample_pack (b : Buffer) (sample_pack : String)
    (samples : List String) : Buffer :=
  if b.samples.any (fun p => p.1 = sample_pack) then
    { b with samples :=
        b.samples.map (fun p =>
          if p.1 = sample_pack then (p.1, hsExtend p.2 samples) else p) }
  else
    { b with samples := b.samples ++ [(sample_pack, hsExtend [] samples)] }

/-- Buffer::add_device_refs: present in the source but never invoked by
on_new_entry (the call site is commented out). -/
def Buffer.add_device_refs (b : Buffer) (game_name : String)
    (refs : List String) : Buffer :=
  { b with device_refs := upsertAssoc b.device_refs game_name refs }

/-- DBWriter state: the connection's database value, the writer-level
IdsCounter (constructed but never consulted by the rom path), the write
buffer and the configured buffer size (u16). -/
structure WriterState where
  ids : IdsCounter
  buffer : Buffer
  db : DBState
  buffer_size : Nat
deriving DecidableEq, Repr

/-- DBWriter::from_connection: fresh counters and an empty buffer over
whatever database the connection points at; no query of the committed
max id is performed. -/
def DBWriter.from_connection (db : DBState) (buffer_size : Nat) : WriterState :=
  ⟨IdsCounter.new, Buffer.new, db, buffer_size⟩

/-- DataWriter::init for the DBWriter: create_schema drops and re-creates
every table, leaving the store empty. -/
def DBWriter.init (st : WriterState) : WriterState :=
  { st with db := DBState.empty }

/-- One parsed DAT entry as handed to on_new_entry. -/
structure Entry where
  game : Game
  roms : List DataFile
  disks : List DataFile
  samples : List String
  device_refs : List String
deriving DecidableEq, Repr

/-- Games-table row written by write_buffer.  The INSERT names only seven
columns (name, clone_of, rom_of, source_file, info_desc, info_year,
info_manuf), so the sample_of column is left NULL. -/
def mkGameRow (g : Game) : GameRow :=
  { name := g.name
    clone_of := g.clone_of
    rom_of := g.rom_of
    source_file := g.source_file
    sample_of := none
    info_desc := g.info_description
    info_year := g.info_year
    info_manuf := g.info_manufacturer }

/-- Roms-table row written by write_buffer from a buffered (DataFile, id)
pair. -/
def mkRomRow (id : Nat) (f : DataFile) : RomRow :=
  { id := id, sha1 := f.sha1, md5 := f.md5, crc := f.crc,
    size := f.size, status := f.status }

/-- Outcome oracle for the per-row INSERT statements executed inside a
flush transaction: tx.execute may fail for any row (constraint violation
or storage error); each predicate decides, from the accumulated table and
the candidate row, whether that execute succeeds. -/
structure TxOps where
  gameOk : List GameRow → GameRow → Bool
  romOk : List RomRow → RomRow → Bool
  gameRomOk : List GameRomRow → GameRomRow → Bool
  sampleOk : List (String × String) → (String × String) → Bool

/-- SQLite constraint semantics for the four INSERT statements: a games row
fails on a duplicate name (primary key), a roms row fails on a duplicate id
(primary key), a game_roms row fails on a duplicate (game_name, rom_id,
name) triple, and the samples INSERT OR IGNORE never errors. -/
def sqliteOps : TxOps :=
  { gameOk := fun acc row => !(acc.any (fun r => r.name = row.name))
    romOk := fun acc row => !(acc.any (fun r => r.id = row.id))
    gameRomOk := fun acc row =>
      !(acc.any (fun r =>
        r.game_name = row.game_name ∧ r.rom_id = row.rom_id ∧ r.name = row.name))
    sampleOk := fun _ _ => true }

/-- Insert loop shared by the games and game_roms passes of write_buffer:
execute the INSERT for each buffered item, appending the row when the
statement succeeds and skipping it (the error is logged) when it fails. -/
def foldInsert {α β : Type} (mk : α → β) (ok : List β → β → Bool)
    (init : List β) (l : List α) : List β :=
  l.foldl (fun acc x => if ok acc (mk x) then acc ++ [mk x] else acc) init

/-- Rom-content INSERT inside the flush transaction: the one statement
whose failure is propagated with the question-mark operator instead of
being logged. -/
def romInsertStep (ops : TxOps) (acc : List RomRow) (fr : DataFile × Nat) :
    Except String (List RomRow) :=
  let row := mkRomRow fr.2 fr.1
  if ops.romOk acc row then Except.ok (acc ++ [row])
  else Except.error "error inserting rom row"

/-- DBWriter::write_buffer: one transaction inserting all buffered games,
roms, game_roms and sample rows, then committing and clearing those four
buffers (the ids counter and device_refs are kept).  A failed games,
game_roms or samples insert is logged and the loop continues; a failed roms
insert propagates, dropping the transaction, so the database is unchanged
and the error reaches the caller.  INSERT OR IGNORE on samples drops
duplicate rows silently. -/
def DBWriter.write_buffer (ops : TxOps) (st : WriterState) :
    Except String WriterState :=
  let db := st.db
  let games2 := foldInsert (fun kv => mkGameRow kv.2) ops.gameOk
    db.games st.buffer.games
  let romsRes : Except String (List RomRow) := st.buffer.roms.foldlM
    (romInsertStep ops) db.roms
  match romsRes with
  | Except.error e => Except.error e
  | Except.ok roms2 =>
      let gameRoms2 := st.buffer.game_roms.foldl
        (fun acc kv =>
          foldInsert (fun idn => ⟨kv.1, idn.1, idn.2, none⟩) ops.gameRomOk
            acc kv.2)
        db.game_roms
      let samples2 := st.buffer.samples.foldl
        (fun acc kv =>
          kv.2.foldl
            (fun acc s =>
              if ops.sampleOk acc (kv.1, s) then
                if (kv.1, s) ∈ acc then acc else acc ++ [(kv.1, s)]
              else acc)
            acc)
        db.samples
      Except.ok
        { st with
          db := { db with games := games2, roms := roms2,
                          game_roms := gameRoms2, samples := samples2 }
          buffer := { st.buffer with games := [], roms := [],
                                     game_roms := [], samples := [] } }

/-- Modelled from the spec: DBReader::get_ids_from_files (data/reader/
sqlite.rs is not in the provided sources).  The content store is queried
per file on the digest tuple — both sides must agree on what they declare —
splitting the input into found (id, file) pairs and not-found files. -/
def dbLookupId (db : DBState) (f : DataFile) : Option Nat :=
  (db.roms.find? (fun r => r.tuple = f.key)).map (fun r => r.id)

/-- Modelled from the spec: the found/not_found split returned by
DBReader::get_ids_from_files. -/
def get_ids_from_files (db : DBState) (roms : List DataFile) :
    List (Nat × DataFile) × List DataFile :=
  (roms.filterMap (fun f => (dbLookupId db f).map (fun i => (i, f))),
   roms.filter (fun f => (dbLookupId db f).isNone))

/-- Ordering used by Vec::sort on (u32, String) pairs: lexicographic. -/
def pairLE (a b : Nat × String) : Prop :=
  a.1 < b.1 ∨ (a.1 = b.1 ∧ a.2 ≤ b.2)

instance : DecidableRel pairLE := fun a b => by
  unfold pairLE; exact inferInstance

instance : IsTotal (Nat × String) pairLE where
  total a b := by
    rcases Nat.lt_trichotomy a.1 b.1 with h | h | h
    · exact Or.inl (Or.inl h)
    · rcases le_total a.2 b.2 with h2 | h2
      · exact Or.inl (Or.inr ⟨h, h2⟩)
      · exact Or.inr (Or.inr ⟨h.symm, h2⟩)
    · exact Or.inr (Or.inl h)

instance : IsTrans (Nat × String) pairLE where
  trans a b c hab hbc := by
    rcases hab with h1 | ⟨h1, h1s⟩
    · rcases hbc with h2 | ⟨h2, _⟩
      · exact Or.inl (h1.trans h2)
      · exact Or.inl (h2 ▸ h1)
    · rcases hbc with h2 | ⟨h2, h2s⟩
      · exact Or.inl (h1 ▸ h2)
      · exact Or.inr ⟨h1.trans h2, h1s.trans h2s⟩

theorem pairLE_antisymm {a b : Nat × String} (hab : pairLE a b)
    (hba : pairLE b a) : a = b := by
  rcases hab with h1 | ⟨h1, h1s⟩
  · rcases hba with h2 | ⟨h2, _⟩
    · exact absurd (h1.trans h2) (lt_irrefl _)
    · exact absurd h1 (h2 ▸ lt_irrefl _)
  · rcases hba with h2 | ⟨h2, h2s⟩
    · exact absurd h2 (h1 ▸ lt_irrefl _)
    · exact Prod.ext h1 (le_antisymm h1s h2s)

/-- Vec::dedup: remove consecutive duplicate elements. -/
def dedupConsec {α : Type} [DecidableEq α] : List α → List α
  | [] => []
  | [a] => [a]
  | a :: b :: rest =>
      if a = b then dedupConsec (b :: rest) else a :: dedupConsec (b :: rest)

/-- DBWriter::get_rom_ids: query the committed store for each rom's digest
tuple, send the not-found roms through the buffer (reuse or allocate), then
sort the (id, local_name) pairs and drop duplicates. -/
def DBWriter.get_rom_ids (db : DBState) (buf : Buffer) (roms : List DataFile) :
    List (Nat × String) × Buffer :=
  let res := get_ids_from_files db roms
  let rom_name_pair := res.1.map (fun p => (p.1, p.2.name))
  let ib := buf.add_roms res.2
  let pairs := rom_name_pair ++ ib.1.map (fun p => (p.1, p.2.name))
  (dedupConsec (List.insertionSort pairLE pairs), ib.2)

/-- DataWriter::on_new_entry for the DBWriter: buffer the game (flushing
when the buffer length, cast to u16, reaches the configured size), resolve
the entry's rom ids and record them as the game's membership, and buffer
the samples under the game's sample_of pack when one is declared.  Disks
and device_refs are accepted but ignored (their handling is commented out
in the source). -/
def DBWriter.on_new_entry (st : WriterState) (e : Entry) :
    Except String WriterState :=
  let buf1 := st.buffer.add_game e.game.name e.game
  let st1res :=
    if st.buffer_size ≤ buf1.len % 65536 then
      DBWriter.write_buffer sqliteOps { st with buffer := buf1 }
    else Except.ok { st with buffer := buf1 }
  match st1res with
  | Except.error e => Except.error e
  | Except.ok st1 =>
      let rl := DBWriter.get_rom_ids st1.db st1.buffer e.roms
      let buf3 := rl.2.add_roms_for_game e.game.name rl.1
      let buf4 :=
        match e.game.sample_of with
        | some sp => buf3.add_sample_pack sp e.samples
        | none => buf3
      Except.ok { st1 with buffer := buf4 }

/-- DBWriter::get_roms_from_parents: the join of game_roms with games on
games.clone_of = game_roms.game_name, yielding one (child_name, rom_id,
parent_name) triple per matching pair of rows. -/
def DBWriter.get_roms_from_parents (db : DBState) :
    List (String × Nat × String) :=
  db.game_roms.flatMap (fun gr =>
    db.games.filterMap (fun g =>
      if g.clone_of = some gr.game_name then some (g.name, gr.rom_id, gr.game_name)
      else none))

/-- One UPDATE of the back-fill pass: set parent on every game_roms row
with the triple's child name and rom id. -/
def applyParentUpdate (rows : List GameRomRow) (t : String × Nat × String) :
    List GameRomRow :=
  rows.map (fun r =>
    if r.game_name = t.1 ∧ r.rom_id = t.2.1 then { r with parent := some t.2.2 }
    else r)

/-- DataWriter::finish for the DBWriter: flush the remaining buffer, then
run the parent back-fill transaction. -/
def DBWriter.finish (st : WriterState) : Except String WriterState :=
  match DBWriter.write_buffer sqliteOps st with
  | Except.error e => Except.error e
  | Except.ok st1 =>
      let triples := DBWriter.get_roms_from_parents st1.db
      let gr2 := triples.foldl applyParentUpdate st1.db.game_roms
      Except.ok { st1 with db := { st1.db with game_roms := gr2 } }

/-- Writer constructed over an empty store, as after init(). -/
def initWriter (buffer_size : Nat) : WriterState :=
  DBWriter.init (DBWriter.from_connection DBState.empty buffer_size)

/-- Process a list of entries in arrival order. -/
def runEntries (st : WriterState) (entries : List Entry) :
    Except String WriterState :=
  entries.foldlM DBWriter.on_new_entry st

/-- A full ingest session: init, every entry in order, then finish. -/
def runSession (buffer_size : Nat) (entries : List Entry) :
    Except String WriterState :=
  match runEntries (initWriter buffer_size) entries with
  | Except.error e => Except.error e
  | Except.ok st => DBWriter.finish st

/-- Modelled from the spec: FileChecks is a bitmask of three independent
boolean bits (SHA1, MD5, CRC); the bitflags type lives in the filesystem
module, which is not part of the provided sources.  It is modelled as a
structure of three booleans, one per bit. -/
structure FileChecks where
  sha1 : Bool
  md5 : Bool
  crc : Bool
deriving DecidableEq, Repr

/-- FileChecks::ALL: all three bits set. -/
def FileChecks.ALL : FileChecks :=
  ⟨true, true, true⟩

/-- FileCheckSearch from data/reader/mod.rs: the per-column non-empty
counts over the roms table. -/
structure FileCheckSearch where
  sha1 : Nat
  md5 : Nat
  crc : Nat
deriving DecidableEq, Repr

/-- FileCheckSearch::get_file_checks: start from ALL and clear each digest
bit whose count is zero. -/
def FileCheckSearch.get_file_checks (s : FileCheckSearch) : FileChecks :=
  let use_checks := FileChecks.ALL
  let use_checks :=
    if s.sha1 = 0 then { use_checks with sha1 := false } else use_checks
  let use_checks :=
    if s.md5 = 0 then { use_checks with md5 := false } else use_checks
  let use_checks :=
    if s.crc = 0 then { use_checks with crc := false } else use_checks
  use_checks

/-- A digest column value is non-empty when it is present and not the empty
string. -/
def nonEmptyCol (c : Option String) : Bool :=
  match c with
  | none => false
  | some s => !(s = "")

/-- Modelled from the spec: the scan of the content table producing the
FileCheckSearch counts (the SQL count query lives in data/reader/sqlite.rs,
which is not part of the provided sources); each count is the number of
rows with a non-empty value in that column. -/
def fileCheckSearchOf (roms : List RomRow) : FileCheckSearch :=
  ⟨(roms.filter (fun r => nonEmptyCol r.sha1)).length,
   (roms.filter (fun r => nonEmptyCol r.md5)).length,
   (roms.filter (fun r => nonEmptyCol r.crc)).length⟩

/-- RomsetMode: the three rom-combining modes of the reader. -/
inductive RomsetMode where
  | Merged
  | NonMerged
  | Split
deriving DecidableEq, Repr

/-- GameSet as built by get_game_set: GameSet::new(game, roms, vec![],
vec![]). -/
structure GameSet where
  game : Game
  roms : List DataFile
  disks : List DataFile
  samples : List String
deriving DecidableEq, Repr

/-- RomstError: the error kind surfaced by the reader (GenericError with a
message). -/
inductive RomstError where
  | GenericError (message : String)
deriving DecidableEq, Repr

/-- The two DataReader trait methods get_game_set is defined from: the
implementations live in data/reader/sqlite.rs, not in the provided sources,
so they are abstract here. -/
structure DataReader where
  get_game : String → Option Game
  get_romset_roms : String → RomsetMode → Except RomstError (List DataFile)

/-- DataReader::get_game_set, the trait default method from
data/reader/mod.rs: look the game up; when absent, return GenericError
with the message naming the game; when present, build a GameSet from the
game and its get_romset_roms result, propagating that call's error. -/
def DataReader.get_game_set (r : DataReader) (game_name : String)
    (rom_mode : RomsetMode) : Except RomstError GameSet :=
  match r.get_game game_name with
  | some game =>
      match r.get_romset_roms game_name rom_mode with
      | Except.ok roms => Except.ok ⟨game, roms, [], []⟩
      | Except.error e => Except.error e
  | none =>
      Except.error (RomstError.GenericError ("Game " ++ game_name ++ " not found"))

/-- Modelled from the spec: get_game over a persisted games table returns
the game when present and the absent value (not an error) otherwise. -/
def dbGetGame (games : List Game) (game_name : String) : Option Game :=
  games.find? (fun g => g.name = game_name)

/-- Digest-tuple keys present in the committed store and in the session's
rom buffer together: the writer's effective (digest tuple, id) mapping. -/
def unionOf (db : DBState) (b : Buffer) : List (DigestTuple × Nat) :=
  db.roms.map (fun r => (r.tuple, r.id)) ++ b.roms.map (fun p => (p.1.key, p.2))

/-- Effective (digest tuple, id) mapping of a writer state. -/
def unionPairs (st : WriterState) : List (DigestTuple × Nat) :=
  unionOf st.db st.buffer

/-- The rom id the writer has resolved for a DataFile's digest key, looked
up across the committed store and the session buffer. -/
def romIdOf (st : WriterState) (f : DataFile) : Option Nat :=
  ((unionPairs st).find? (fun q => q.1 = f.key)).map Prod.snd

/-- Writer-state well-formedness maintained by the ingest session: the
effective mapping binds each digest key at most once, assigns each id at
most once, and every assigned id is below the buffer's rom counter. -/
def WFparts (db : DBState) (b : Buffer) : Prop :=
  ((unionOf db b).map Prod.fst).Nodup ∧
  ((unionOf db b).map Prod.snd).Nodup ∧
  ∀ q ∈ unionOf db b, q.2 < b.ids.rom

/-- Well-formedness of a writer state. -/
def WF (st : WriterState) : Prop :=
  WFparts st.db st.buffer

/-- Total number of rom DataFiles carried by a list of entries. -/
def totalRoms (entries : List Entry) : Nat :=
  (entries.map (fun e => e.roms.length)).sum

lemma mem_dedupConsec {α : Type} [DecidableEq α] :
    ∀ (l : List α) (x : α), x ∈ dedupConsec l → x ∈ l
  | [], x, h => by simp [dedupConsec] at h
  | [a], x, h => by simpa [dedupConsec] using h
  | a :: b :: rest, x, h => by
      by_cases hab : a = b
      · rw [dedupConsec, if_pos hab] at h
        exact List.mem_cons_of_mem _ (mem_dedupConsec (b :: rest) x h)
      · rw [dedupConsec, if_neg hab] at h
        rcases List.mem_cons.mp h with h1 | h2
        · exact h1 ▸ List.mem_cons_self _ _
        · exact List.mem_cons_of_mem _ (mem_dedupConsec (b :: rest) x h2)

lemma pairwise_dedupConsec {α : Type} [DecidableEq α] {le : α → α → Prop}
    (hanti : ∀ a b, le a b → le b a → a = b) :
    ∀ (l : List α), l.Pairwise le →
      (dedupConsec l).Pairwise (fun a b => le a b ∧ a ≠ b)
  | [], _ => by simp [dedupConsec]
  | [a], _ => by simp [dedupConsec]
  | a :: b :: rest, h => by
      obtain ⟨ha, htail⟩ := List.pairwise_cons.mp h
      by_cases hab : a = b
      · rw [dedupConsec, if_pos hab]
        exact pairwise_dedupConsec hanti _ htail
      · rw [dedupConsec, if_neg hab]
        refine List.pairwise_cons.mpr ⟨?_, pairwise_dedupConsec hanti _ htail⟩
        intro x hx
        have hxmem : x ∈ b :: rest := mem_dedupConsec _ _ hx
        refine ⟨ha x hxmem, ?_⟩
        rintro rfl
        rcases List.mem_cons.mp hxmem with h1 | h2
        · exact hab h1
        · obtain ⟨hb, _⟩ := List.pairwise_cons.mp htail
          exact hab (hanti a b (ha b (List.mem_cons_self _ _)) (hb a h2))

lemma get_file_checks_fields (s : FileCheckSearch) :
    (s.get_file_checks.sha1 = true ↔ s.sha1 ≠ 0) ∧
    (s.get_file_checks.md5 = true ↔ s.md5 ≠ 0) ∧
    (s.get_file_checks.crc = true ↔ s.crc ≠ 0) := by
  unfold FileCheckSearch.get_file_checks FileChecks.ALL
  by_cases h1 : s.sha1 = 0 <;> by_cases h2 : s.md5 = 0 <;>
    by_cases h3 : s.crc = 0 <;> simp [h1, h2, h3]

lemma filter_length_ne_zero {α : Type} (l : List α) (p : α → Bool) :
    (l.filter p).length ≠ 0 ↔ ∃ x ∈ l, p x = true := by
  rw [Ne, List.length_eq_zero, List.filter_eq_nil_iff]
  push_neg
  simp

/-- C8.  Mask completeness: for each digest column among SHA1, MD5 and CRC,
the FileChecks bitmask computed by get_file_checks from the per-column
non-empty counts has that column's bit set if and only if the roms table
has at least one row with a non-empty value in that column (the count is
non-zero). -/
theorem c8_mask_completeness (roms : List RomRow) :
    ((fileCheckSearchOf roms).get_file_checks.sha1 = true ↔
      ∃ r ∈ roms, nonEmptyCol r.sha1 = true) ∧
    ((fileCheckSearchOf roms).get_file_checks.md5 = true ↔
      ∃ r ∈ roms, nonEmptyCol r.md5 = true) ∧
    ((fileCheckSearchOf roms).get_file_checks.crc = true ↔
      ∃ r ∈ roms, nonEmptyCol r.crc = true) := by
  obtain ⟨h1, h2, h3⟩ := get_file_checks_fields (fileCheckSearchOf roms)
  refine ⟨?_, ?_, ?_⟩
  · rw [h1]; exact filter_length_ne_zero roms _
  · rw [h2]; exact filter_length_ne_zero roms _
  · rw [h3]; exact filter_length_ne_zero roms _

/-- Committed store holding a single rom row with id 5: a witness database
for the id-seeding behaviour at writer construction. -/
def dbWithMax5 : DBState :=
  { DBState.empty with roms := [⟨5, some "aa", none, none, 8, none⟩] }

/-- C2 counterexample.  Constructing a writer over a store whose maximum
committed rom id is 5 leaves the buffer's rom counter at 0, not at
max(id)+1 = 6, and the first id the session allocates is 0, which is not
strictly greater than the committed id 5. -/
theorem c2_counterexample :
    5 ∈ dbWithMax5.roms.map RomRow.id ∧
    (DBWriter.from_connection dbWithMax5 5000).buffer.ids.rom ≠ 5 + 1 ∧
    ¬ 5 < ((DBWriter.from_connection dbWithMax5 5000).buffer.ids.get_next_rom).1 := by
  decide

/-- C2 (amended).  At writer construction the buffer's rom id counter
starts at 0 — it is not seeded from the committed roms table — and
allocation within the session is monotonically increasing: each allocation
returns the current counter and increments it, so while the counter stays
below 2^32 consecutive allocations return strictly increasing ids. -/
theorem c2_amended (db : DBState) (buffer_size : Nat) (c : IdsCounter) :
    (DBWriter.from_connection db buffer_size).buffer.ids.rom = 0 ∧
    (c.get_next_rom).1 = c.rom ∧
    (c.rom + 1 < 4294967296 →
      (c.get_next_rom).1 < ((c.get_next_rom).2.get_next_rom).1) := by
  refine ⟨rfl, rfl, fun h => ?_⟩
  show c.rom < (c.rom + 1) % 4294967296
  rw [Nat.mod_eq_of_lt h]
  exact Nat.lt_succ_self _

/-- Witness for c2_amended at a concrete counter. -/
theorem c2_amended_witness :
    (DBWriter.from_connection DBState.empty 5000).buffer.ids.rom = 0 ∧
    (IdsCounter.new.get_next_rom).1 = IdsCounter.new.rom ∧
    (IdsCounter.new.get_next_rom).1 <
      ((IdsCounter.new.get_next_rom).2.get_next_rom).1 := by
  obtain ⟨h1, h2, h3⟩ := c2_amended DBState.empty 5000 IdsCounter.new
  exact ⟨h1, h2, h3 (by decide)⟩

/-- Game declaring a sample pack: the failing input for the sample_of
persistence claim. -/
def gameWithSamples : Game :=
  ⟨"gyruss", none, none, none, some "gyruss", some "Gyruss", some "1983", none⟩

/-- Entry carrying that game and one sample name. -/
def entryWithSamples : Entry :=
  ⟨gameWithSamples, [], [], ["explode.wav"], []⟩

/-- C7 (code bug).  The games INSERT in write_buffer names only seven
columns and omits sample_of, so the games row committed for a game whose
sample_of is declared carries NULL there: ingesting a game with sample_of
set to "gyruss" produces a games table whose only row has sample_of = none,
and a later read of the row cannot recover the declared value. -/
theorem c7_sample_of_dropped :
    gameWithSamples.sample_of = some "gyruss" ∧
    ∃ st, runSession 5000 [entryWithSamples] = Except.ok st ∧
      st.db.games.map (fun r => (r.name, r.sample_of)) = [("gyruss", none)] :=
  ⟨rfl, _, rfl, by decide⟩

/-- C9.  Missing referent handling: get_game over the index returns the
absent value (not an error) for a name no game carries; get_game_set on a
name whose lookup is absent returns a GenericError whose message contains
that name; and for a present name get_game_set returns the GameSet built
from the game and its get_romset_roms result under the requested mode. -/
theorem c9_get_game_vs_get_game_set :
    (∀ (games : List Game) (game_name : String),
       (∀ g ∈ games, g.name ≠ game_name) → dbGetGame games game_name = none) ∧
    (∀ (r : DataReader) (game_name : String) (rom_mode : RomsetMode),
       r.get_game game_name = none →
       ∃ pre post, r.get_game_set game_name rom_mode =
         Except.error (RomstError.GenericError (pre ++ game_name ++ post))) ∧
    (∀ (r : DataReader) (game_name : String) (rom_mode : RomsetMode)
       (g : Game) (roms : List DataFile),
       r.get_game game_name = some g →
       r.get_romset_roms game_name rom_mode = Except.ok roms →
       r.get_game_set game_name rom_mode = Except.ok ⟨g, roms, [], []⟩) := by
  refine ⟨?_, ?_, ?_⟩
  · intro games game_name h
    apply List.find?_eq_none.mpr
    intro g hg
    simp [h g hg]
  · intro r game_name rom_mode h
    refine ⟨"Game ", " not found", ?_⟩
    unfold DataReader.get_game_set
    rw [h]
  · intro r game_name rom_mode g roms hg hr
    unfold DataReader.get_game_set
    rw [hg, hr]

/-- A reader over a one-game index, used as the c9 witness. -/
def readerW : DataReader :=
  ⟨fun n => if n = "gyruss" then some gameWithSamples else none,
   fun _ _ => Except.ok []⟩

/-- Witness for c9_get_game_vs_get_game_set at a concrete reader. -/
theorem c9_witness :
    dbGetGame [gameWithSamples] "missing" = none ∧
    (∃ pre post, readerW.get_game_set "missing" RomsetMode.Merged =
      Except.error (RomstError.GenericError (pre ++ "missing" ++ post))) ∧
    readerW.get_game_set "gyruss" RomsetMode.Merged =
      Except.ok ⟨gameWithSamples, [], [], []⟩ := by
  obtain ⟨h1, h2, h3⟩ := c9_get_game_vs_get_game_set
  exact ⟨h1 [gameWithSamples] "missing" (by decide),
         h2 readerW "missing" RomsetMode.Merged (by rfl),
         h3 readerW "gyruss" RomsetMode.Merged gameWithSamples [] (by rfl) (by rfl)⟩

lemma dedup_sort_sorted_nodup (pairs : List (Nat × String)) :
    (dedupConsec (List.insertionSort pairLE pairs)).Pairwise pairLE ∧
    (dedupConsec (List.insertionSort pairLE pairs)).Nodup := by
  have hs : (List.insertionSort pairLE pairs).Pairwise pairLE :=
    List.sorted_insertionSort pairLE pairs
  have hp := pairwise_dedupConsec (fun a b hab hba => pairLE_antisymm hab hba)
    _ hs
  exact ⟨hp.imp (fun h => h.1), hp.imp (fun h => h.2)⟩

/-- C3.  Rom id resolution: get_rom_ids resolves each incoming rom by first
querying the committed content store for its digest tuple, then the
session's rom buffer, and only otherwise allocating a fresh id (recording
it in the buffer); and for every input the returned (rom_id, local_name)
vector — the one recorded as the game's membership by add_roms_for_game —
is sorted and free of duplicate pairs. -/
theorem c3_rom_id_resolution :
    (∀ (db : DBState) (buf : Buffer) (roms : List DataFile),
       (DBWriter.get_rom_ids db buf roms).1.Pairwise pairLE ∧
       (DBWriter.get_rom_ids db buf roms).1.Nodup) ∧
    (∀ (db : DBState) (buf : Buffer) (r : DataFile) (i : Nat),
       dbLookupId db r = some i →
       DBWriter.get_rom_ids db buf [r] = ([(i, r.name)], buf)) ∧
    (∀ (db : DBState) (buf : Buffer) (r : DataFile) (p : DataFile × Nat),
       dbLookupId db r = none →
       buf.roms.find? (fun q => q.1.key = r.key) = some p →
       DBWriter.get_rom_ids db buf [r] = ([(p.2, r.name)], buf)) ∧
    (∀ (db : DBState) (buf : Buffer) (r : DataFile),
       dbLookupId db r = none →
       buf.roms.find? (fun q => q.1.key = r.key) = none →
       DBWriter.get_rom_ids db buf [r] =
         ([(buf.ids.rom, r.name)],
          { buf with ids := (buf.ids.get_next_rom).2,
                     roms := buf.roms ++ [(r, buf.ids.rom)] })) := by
  refine ⟨?_, ?_, ?_, ?_⟩
  · intro db buf roms
    exact dedup_sort_sorted_nodup _
  · intro db buf r i h
    simp [DBWriter.get_rom_ids, get_ids_from_files, h, Buffer.add_roms,
      List.insertionSort, List.orderedInsert, dedupConsec]
  · intro db buf r p h hb
    simp [DBWriter.get_rom_ids, get_ids_from_files, h, Buffer.add_roms,
      addRomsStep, hb, List.insertionSort, List.orderedInsert, dedupConsec]
  · intro db buf r h hb
    simp [DBWriter.get_rom_ids, get_ids_from_files, h, Buffer.add_roms,
      addRomsStep, hb, List.insertionSort, List.orderedInsert, dedupConsec,
      IdsCounter.get_next_rom]

/-- DataFile matching the single committed row of dbWithMax5. -/
def fileAA : DataFile := ⟨"pac.rom", some "aa", none, none, 8, none⟩

/-- DataFile absent from dbWithMax5. -/
def fileZZ : DataFile := ⟨"zz.rom", some "zz", none, none, 4, none⟩

/-- Witness for c3_rom_id_resolution at concrete inputs: a committed rom
reuses its committed id, an unknown rom gets the fresh buffer id 0. -/
theorem c3_witness :
    DBWriter.get_rom_ids dbWithMax5 Buffer.new [fileAA] =
      ([(5, "pac.rom")], Buffer.new) ∧
    DBWriter.get_rom_ids dbWithMax5 Buffer.new [fileZZ] =
      ([(0, "zz.rom")],
       { Buffer.new with ids := (Buffer.new.ids.get_next_rom).2,
                         roms := Buffer.new.roms ++ [(fileZZ, Buffer.new.ids.rom)] }) := by
  obtain ⟨h1, h2, h3, h4⟩ := c3_rom_id_resolution
  exact ⟨h2 dbWithMax5 Buffer.new fileAA 5 (by decide),
         h4 dbWithMax5 Buffer.new fileZZ (by decide) (by decide)⟩

lemma foldlM_romInsert_ok (ops : TxOps)
    (hok : ∀ acc row, ops.romOk acc row = true) :
    ∀ (l : List (DataFile × Nat)) (init : List RomRow),
      l.foldlM (romInsertStep ops) init =
        Except.ok (init ++ l.map (fun fr => mkRomRow fr.2 fr.1))
  | [], init => by
      simp only [List.foldlM_nil, List.map_nil, List.append_nil]
      rfl
  | fr :: l, init => by
      have h1 : romInsertStep ops init fr =
          Except.ok (init ++ [mkRomRow fr.2 fr.1]) := by
        simp [romInsertStep, hok]
      rw [List.foldlM_cons, h1]
      show l.foldlM (romInsertStep ops) (init ++ [mkRomRow fr.2 fr.1]) = _
      rw [foldlM_romInsert_ok ops hok l (init ++ [mkRomRow fr.2 fr.1])]
      simp

/-- C5.  Flush error policy: during write_buffer, failed games, game_roms
and samples row inserts are logged and the batched transaction continues
and commits (for any outcome oracle whose rom-content inserts succeed, the
flush returns ok and the rom rows are committed), whereas a failed roms
(ROM content) insert aborts the flush and surfaces as a fatal error to the
caller. -/
theorem c5_flush_error_policy :
    (∀ (ops : TxOps) (st : WriterState),
       (∀ acc row, ops.romOk acc row = true) →
       ∃ st', DBWriter.write_buffer ops st = Except.ok st' ∧
         st'.db.roms = st.db.roms ++
           st.buffer.roms.map (fun fr => mkRomRow fr.2 fr.1)) ∧
    (∀ (ops : TxOps) (st : WriterState),
       (∀ acc row, ops.romOk acc row = false) →
       st.buffer.roms ≠ [] →
       DBWriter.write_buffer ops st = Except.error "error inserting rom row") := by
  constructor
  · intro ops st hok
    simp only [DBWriter.write_buffer]
    rw [foldlM_romInsert_ok ops hok]
    exact ⟨_, rfl, rfl⟩
  · intro ops st hfail hne
    obtain ⟨fr, rest, hrom⟩ := List.exists_cons_of_ne_nil hne
    have h1 : romInsertStep ops st.db.roms fr =
        Except.error "error inserting rom row" := by
      simp [romInsertStep, hfail]
    simp only [DBWriter.write_buffer, hrom, List.foldlM_cons, h1]
    rfl

/-- Oracle failing every games, game_roms and samples insert while rom
inserts succeed. -/
def rowFailOps : TxOps :=
  ⟨fun _ _ => false, fun _ _ => true, fun _ _ => false, fun _ _ => false⟩

/-- Oracle failing every rom-content insert. -/
def romFailOps : TxOps :=
  ⟨fun _ _ => true, fun _ _ => false, fun _ _ => true, fun _ _ => true⟩

/-- Writer state with one buffered game, rom, membership list and sample
set. -/
def bufferedSt : WriterState :=
  { ids := IdsCounter.new
    buffer := { Buffer.new with
      games := [("gyruss", gameWithSamples)]
      roms := [(fileZZ, 0)]
      game_roms := [("gyruss", [(0, "zz.rom")])]
      samples := [("gyruss", ["explode.wav"])] }
    db := DBState.empty
    buffer_size := 5000 }

/-- Witness for c5_flush_error_policy: with every games, game_roms and
samples insert failing the flush still commits, while a failing rom insert
aborts it. -/
theorem c5_witness :
    (∃ st', DBWriter.write_buffer rowFailOps bufferedSt = Except.ok st' ∧
       st'.db.roms = bufferedSt.db.roms ++
         bufferedSt.buffer.roms.map (fun fr => mkRomRow fr.2 fr.1)) ∧
    DBWriter.write_buffer romFailOps bufferedSt =
      Except.error "error inserting rom row" := by
  obtain ⟨ha, hb⟩ := c5_flush_error_policy
  exact ⟨ha rowFailOps bufferedSt (fun _ _ => rfl),
         hb romFailOps bufferedSt (fun _ _ => rfl) (by decide)⟩

lemma foldl_addRomsStep_fields :
    ∀ (roms : List DataFile) (acc : List (Nat × DataFile)) (b : Buffer),
      ((List.foldl addRomsStep (acc, b) roms).2.games = b.games) ∧
      ((List.foldl addRomsStep (acc, b) roms).2.samples = b.samples) ∧
      ((List.foldl addRomsStep (acc, b) roms).2.game_roms = b.game_roms) ∧
      ((List.foldl addRomsStep (acc, b) roms).2.device_refs = b.device_refs)
  | [], acc, b => ⟨rfl, rfl, rfl, rfl⟩
  | r :: rs, acc, b => by
      rw [List.foldl_cons]
      rcases hfind : b.roms.find? (fun p => p.1.key = r.key) with _ | p
      · have h := foldl_addRomsStep_fields rs
          (acc ++ [((b.ids.get_next_rom).1, r)])
          { b with ids := (b.ids.get_next_rom).2,
                   roms := b.roms ++ [(r, (b.ids.get_next_rom).1)] }
        simpa [addRomsStep, hfind] using h
      · have h := foldl_addRomsStep_fields rs (acc ++ [(p.2, r)]) b
        simpa [addRomsStep, hfind] using h

lemma add_roms_buffer_fields (b : Buffer) (roms : List DataFile) :
    ((b.add_roms roms).2.games = b.games) ∧
    ((b.add_roms roms).2.samples = b.samples) ∧
    ((b.add_roms roms).2.game_roms = b.game_roms) ∧
    ((b.add_roms roms).2.device_refs = b.device_refs) :=
  foldl_addRomsStep_fields roms [] b

lemma get_rom_ids_buffer_fields (db : DBState) (buf : Buffer)
    (roms : List DataFile) :
    ((DBWriter.get_rom_ids db buf roms).2.games = buf.games) ∧
    ((DBWriter.get_rom_ids db buf roms).2.samples = buf.samples) ∧
    ((DBWriter.get_rom_ids db buf roms).2.game_roms = buf.game_roms) ∧
    ((DBWriter.get_rom_ids db buf roms).2.device_refs = buf.device_refs) :=
  add_roms_buffer_fields buf (get_ids_from_files db roms).2

lemma on_new_entry_no_flush (st : WriterState) (e : Entry)
    (hs : e.game.sample_of = none)
    (hlen : ¬ st.buffer_size ≤
      (st.buffer.add_game e.game.name e.game).len % 65536) :
    ∃ buf', DBWriter.on_new_entry st e = Except.ok { st with buffer := buf' } ∧
      buf'.games = upsertAssoc st.buffer.games e.game.name e.game ∧
      buf'.samples = st.buffer.samples := by
  simp only [DBWriter.on_new_entry, if_neg hlen, hs]
  refine ⟨_, rfl, ?_, ?_⟩
  · show ((DBWriter.get_rom_ids st.db (st.buffer.add_game e.game.name e.game)
      e.roms).2.add_roms_for_game e.game.name _).games = _
    have h := get_rom_ids_buffer_fields st.db
      (st.buffer.add_game e.game.name e.game) e.roms
    exact h.1
  · show ((DBWriter.get_rom_ids st.db (st.buffer.add_game e.game.name e.game)
      e.roms).2.add_roms_for_game e.game.name _).samples = _
    have h := get_rom_ids_buffer_fields st.db
      (st.buffer.add_game e.game.name e.game) e.roms
    exact h.2.1

/-- First entry carrying the duplicated game name. -/
def dupEntryA : Entry :=
  ⟨⟨"dupgame", none, none, none, none, some "first version", none, none⟩,
   [], [], [], []⟩

/-- Second entry carrying the same game name with different data. -/
def dupEntryB : Entry :=
  ⟨⟨"dupgame", some "otherparent", none, none, none, some "second version",
    none, none⟩,
   [], [], [], []⟩

/-- C6 counterexample.  Ingesting two entries with the same game name in one
session is not an error: both on_new_entry calls succeed, and the buffer
keeps only the second entry's game — the HashMap insert is last-writer-wins
and the first entry's data is silently discarded. -/
theorem c6_counterexample :
    dupEntryA.game.name = dupEntryB.game.name ∧
    dupEntryA.game ≠ dupEntryB.game ∧
    ∃ st, runEntries (initWriter 5000) [dupEntryA, dupEntryB] = Except.ok st ∧
      st.buffer.games = [("dupgame", dupEntryB.game)] :=
  ⟨rfl, by decide, _, rfl, by decide⟩

/-- C6 (amended).  Ingesting two entries with the same game name within one
session is not fatal: when no flush intervenes, both calls succeed and the
buffer's HashMap insert is last-writer-wins, silently keeping only the
second entry's game record (when the duplicate crosses a flush boundary the
later games-row INSERT fails on the primary key and is logged while the
batch continues, per the flush error policy). -/
theorem c6_amended (buffer_size : Nat) (e1 e2 : Entry)
    (hbs : 2 < buffer_size)
    (hname : e1.game.name = e2.game.name)
    (hs1 : e1.game.sample_of = none) (hs2 : e2.game.sample_of = none) :
    ∃ st, runEntries (initWriter buffer_size) [e1, e2] = Except.ok st ∧
      st.buffer.games = [(e2.game.name, e2.game)] := by
  have hmod : ∀ n : Nat, n < 65536 → n % 65536 = n := fun n h => Nat.mod_eq_of_lt h
  -- first entry
  have hlen1 : ¬ buffer_size ≤
      ((initWriter buffer_size).buffer.add_game e1.game.name e1.game).len % 65536 := by
    show ¬ buffer_size ≤ (Buffer.new.add_game e1.game.name e1.game).len % 65536
    have : (Buffer.new.add_game e1.game.name e1.game).len = 1 := by
      simp [Buffer.add_game, Buffer.len, Buffer.new, upsertAssoc]
    rw [this]
    omega
  obtain ⟨buf1, hstep1, hg1, hsam1⟩ :=
    on_new_entry_no_flush (initWriter buffer_size) e1 hs1 hlen1
  have hg1' : buf1.games = [(e1.game.name, e1.game)] := by
    rw [hg1]
    simp [initWriter, DBWriter.init, DBWriter.from_connection, Buffer.new,
      upsertAssoc]
  have hsam1' : buf1.samples = [] := by
    rw [hsam1]
    rfl
  -- second entry
  set st1 : WriterState := { initWriter buffer_size with buffer := buf1 }
  have hlen2 : ¬ st1.buffer_size ≤
      (st1.buffer.add_game e2.game.name e2.game).len % 65536 := by
    have : (st1.buffer.add_game e2.game.name e2.game).len = 1 := by
      simp [Buffer.add_game, Buffer.len, hg1', hsam1', upsertAssoc, hname]
    rw [this]
    have hbsz : st1.buffer_size = buffer_size := rfl
    rw [hbsz]
    omega
  obtain ⟨buf2, hstep2, hg2, hsam2⟩ :=
    on_new_entry_no_flush st1 e2 hs2 hlen2
  have hg2' : buf2.games = [(e2.game.name, e2.game)] := by
    rw [hg2, hg1']
    simp [upsertAssoc, hname]
  refine ⟨{ st1 with buffer := buf2 }, ?_, hg2'⟩
  show List.foldlM DBWriter.on_new_entry (initWriter buffer_size) [e1, e2] = _
  rw [List.foldlM_cons, hstep1]
  show List.foldlM DBWriter.on_new_entry st1 [e2] = _
  rw [List.foldlM_cons, hstep2]
  rfl

/-- Witness for c6_amended at the concrete duplicate entries. -/
theorem c6_amended_witness :
    ∃ st, runEntries (initWriter 5000) [dupEntryA, dupEntryB] = Except.ok st ∧
      st.buffer.games = [(dupEntryB.game.name, dupEntryB.game)] :=
  c6_amended 5000 dupEntryA dupEntryB (by decide) (by decide) (by decide)
    (by decide)

lemma write_buffer_devices (ops : TxOps) (st st' : WriterState)
    (h : DBWriter.write_buffer ops st = Except.ok st') :
    st'.db.devices = st.db.devices := by
  simp only [DBWriter.write_buffer] at h
  rcases hres : List.foldlM (romInsertStep ops) st.db.roms st.buffer.roms with
    e2 | roms2
  · simp only [hres] at h
    exact Except.noConfusion h
  · simp only [hres] at h
    injection h with h2
    subst h2
    rfl

lemma on_new_entry_devices (st st' : WriterState) (e : Entry)
    (h : DBWriter.on_new_entry st e = Except.ok st') :
    st'.db.devices = st.db.devices := by
  simp only [DBWriter.on_new_entry] at h
  by_cases hc : st.buffer_size ≤ (st.buffer.add_game e.game.name e.game).len % 65536
  · rw [if_pos hc] at h
    rcases hwb : DBWriter.write_buffer sqliteOps
        { st with buffer := st.buffer.add_game e.game.name e.game } with e1 | st1
    · simp only [hwb] at h
      exact Except.noConfusion h
    · simp only [hwb] at h
      injection h with h2
      subst h2
      exact write_buffer_devices sqliteOps
        { st with buffer := st.buffer.add_game e.game.name e.game } st1 hwb
  · rw [if_neg hc] at h
    injection h with h2
    subst h2
    rfl

lemma runEntries_devices :
    ∀ (entries : List Entry) (st st' : WriterState),
      runEntries st entries = Except.ok st' → st'.db.devices = st.db.devices
  | [], st, st', h => by
      injection h with h2
      subst h2
      rfl
  | e :: es, st, st', h => by
      unfold runEntries at h
      rw [List.foldlM_cons] at h
      rcases h1 : DBWriter.on_new_entry st e with e1 | st1
      · rw [h1] at h
        exact Except.noConfusion h
      · rw [h1] at h
        have h2 : runEntries st1 es = Except.ok st' := h
        rw [runEntries_devices es st1 st' h2]
        exact on_new_entry_devices st st1 e h1

lemma finish_devices (st st' : WriterState)
    (h : DBWriter.finish st = Except.ok st') :
    st'.db.devices = st.db.devices := by
  unfold DBWriter.finish at h
  rcases hwb : DBWriter.write_buffer sqliteOps st with e1 | st1
  · simp only [hwb] at h
    exact Except.noConfusion h
  · simp only [hwb] at h
    injection h with h2
    subst h2
    exact write_buffer_devices sqliteOps st st1 hwb

/-- C10.  Device references are never persisted: for any sequence of
entries processed after init, and for a full session ended by finish, no
row is ever inserted into the devices table (on_new_entry never calls
Buffer::add_device_refs — the call is commented out — and write_buffer and
finish never touch the devices table), so the devices table of an index
produced by this writer is always empty. -/
theorem c10_devices_never_persisted :
    (∀ (buffer_size : Nat) (entries : List Entry) (st : WriterState),
       runEntries (initWriter buffer_size) entries = Except.ok st →
       st.db.devices = []) ∧
    (∀ (buffer_size : Nat) (entries : List Entry) (st : WriterState),
       runSession buffer_size entries = Except.ok st →
       st.db.devices = []) := by
  constructor
  · intro buffer_size entries st h
    rw [runEntries_devices entries _ st h]
    rfl
  · intro buffer_size entries st h
    unfold runSession at h
    rcases h1 : runEntries (initWriter buffer_size) entries with e1 | st1
    · rw [h1] at h
      exact Except.noConfusion h
    · rw [h1] at h
      rw [finish_devices st1 st h, runEntries_devices entries _ st1 h1]
      rfl

/-- State after processing the sample entry without finish. -/
def devRunSt : WriterState :=
  match runEntries (initWriter 5000) [entryWithSamples] with
  | Except.ok s => s
  | Except.error _ => initWriter 5000

/-- State after a full session over the sample entry. -/
def devSessionSt : WriterState :=
  match runSession 5000 [entryWithSamples] with
  | Except.ok s => s
  | Except.error _ => initWriter 5000

/-- Witness for c10_devices_never_persisted at a concrete session. -/
theorem c10_witness :
    devRunSt.db.devices = [] ∧ devSessionSt.db.devices = [] := by
  obtain ⟨h1, h2⟩ := c10_devices_never_persisted
  exact ⟨h1 5000 [entryWithSamples] devRunSt (by rfl),
         h2 5000 [entryWithSamples] devSessionSt (by rfl)⟩

/-- Parent value a game_roms row ends up with after the back-fill UPDATE
loop has processed the triple list: the last matching triple wins, the
initial value survives when nothing matches. -/
def updFn (ts : List (String × Nat × String)) (g : String) (i : Nat)
    (p0 : Option String) : Option String :=
  ts.foldl (fun par t => if g = t.1 ∧ i = t.2.1 then some t.2.2 else par) p0

lemma backfill_eq_map :
    ∀ (ts : List (String × Nat × String)) (rows : List GameRomRow),
      ts.foldl applyParentUpdate rows =
        rows.map (fun r =>
          { r with parent := updFn ts r.game_name r.rom_id r.parent })
  | [], rows => by
      rw [List.foldl_nil]
      have h : (fun r : GameRomRow =>
          { r with parent := updFn [] r.game_name r.rom_id r.parent }) =
          id := by
        funext r
        rfl
      rw [h, List.map_id]
  | t :: ts, rows => by
      rw [List.foldl_cons, backfill_eq_map ts (applyParentUpdate rows t),
        applyParentUpdate, List.map_map]
      have h : ((fun r : GameRomRow =>
            { r with parent := updFn ts r.game_name r.rom_id r.parent }) ∘
          (fun r : GameRomRow =>
            if r.game_name = t.1 ∧ r.rom_id = t.2.1 then
              { r with parent := some t.2.2 } else r)) =
          (fun r : GameRomRow =>
            { r with parent := updFn (t :: ts) r.game_name r.rom_id r.parent }) := by
        funext r
        by_cases hcond : r.game_name = t.1 ∧ r.rom_id = t.2.1
        · simp only [Function.comp, if_pos hcond, updFn, List.foldl_cons]
        · simp only [Function.comp, if_neg hcond, updFn, List.foldl_cons]
      rw [h]

lemma updFn_no_match :
    ∀ (ts : List (String × Nat × String)) (g : String) (i : Nat)
      (p0 : Option String),
      (∀ t ∈ ts, ¬(g = t.1 ∧ i = t.2.1)) → updFn ts g i p0 = p0
  | [], g, i, p0, _ => rfl
  | t :: ts, g, i, p0, h => by
      unfold updFn
      rw [List.foldl_cons, if_neg (h t (List.mem_cons_self _ _))]
      exact updFn_no_match ts g i p0 (fun t' ht' => h t' (List.mem_cons_of_mem _ ht'))

lemma updFn_match :
    ∀ (ts : List (String × Nat × String)) (g : String) (i : Nat)
      (p0 : Option String) (p : String),
      (∃ t ∈ ts, g = t.1 ∧ i = t.2.1) →
      (∀ t ∈ ts, g = t.1 → i = t.2.1 → t.2.2 = p) →
      updFn ts g i p0 = some p
  | [], g, i, p0, p, hex, _ => by
      obtain ⟨t, ht, _⟩ := hex
      exact absurd ht (List.not_mem_nil t)
  | t :: ts, g, i, p0, p, hex, huni => by
      unfold updFn
      rw [List.foldl_cons]
      by_cases hc : g = t.1 ∧ i = t.2.1
      · rw [if_pos hc]
        have hp : t.2.2 = p := huni t (List.mem_cons_self _ _) hc.1 hc.2
        by_cases hm : ∃ t' ∈ ts, g = t'.1 ∧ i = t'.2.1
        · exact updFn_match ts g i (some t.2.2) p hm
            (fun t' ht' => huni t' (List.mem_cons_of_mem _ ht'))
        · push_neg at hm
          have := updFn_no_match ts g i (some t.2.2)
            (fun t' ht' hcc => (hm t' ht' hcc.1) hcc.2)
          rw [show ts.foldl
              (fun par t' => if g = t'.1 ∧ i = t'.2.1 then some t'.2.2 else par)
              (some t.2.2) = updFn ts g i (some t.2.2) from rfl, this, hp]
      · rw [if_neg hc]
        obtain ⟨t', ht', hcond⟩ := hex
        rcases List.mem_cons.mp ht' with rfl | htl
        · exact absurd hcond hc
        · exact updFn_match ts g i p0 p ⟨t', htl, hcond⟩
            (fun t'' ht'' => huni t'' (List.mem_cons_of_mem _ ht''))

lemma mem_triples (db : DBState) (c : String) (i : Nat) (p : String) :
    (c, i, p) ∈ DBWriter.get_roms_from_parents db ↔
      ∃ gr ∈ db.game_roms, gr.game_name = p ∧ gr.rom_id = i ∧
        ∃ g ∈ db.games, g.name = c ∧ g.clone_of = some p := by
  unfold DBWriter.get_roms_from_parents
  rw [List.mem_flatMap]
  constructor
  · rintro ⟨gr, hgr, hmem⟩
    rw [List.mem_filterMap] at hmem
    obtain ⟨g, hg, heq⟩ := hmem
    by_cases hc : g.clone_of = some gr.game_name
    · rw [if_pos hc] at heq
      injection heq with h
      injection h with h1 h23
      injection h23 with h2 h3
      exact ⟨gr, hgr, h3, h2, g, hg, h1, h3 ▸ hc⟩
    · rw [if_neg hc] at heq
      exact Option.noConfusion heq
  · rintro ⟨gr, hgr, hp, hi, g, hg, hc1, hc2⟩
    refine ⟨gr, hgr, ?_⟩
    rw [List.mem_filterMap]
    refine ⟨g, hg, ?_⟩
    rw [if_pos (by rw [hp]; exact hc2), hc1, hp, hi]

lemma find_name_of_nodup :
    ∀ (games : List GameRow), (games.map GameRow.name).Nodup →
      ∀ g ∈ games, games.find? (fun x => x.name = g.name) = some g
  | [], _, g, hg => absurd hg (List.not_mem_nil g)
  | a :: rest, hnd, g, hg => by
      rw [List.map_cons, List.nodup_cons] at hnd
      obtain ⟨hnotin, hnd2⟩ := hnd
      rcases List.mem_cons.mp hg with rfl | hgr
      · rw [List.find?_cons_of_pos]
        simp
      · have hne : ¬ (a.name = g.name) := by
          intro he
          exact hnotin (he ▸ List.mem_map_of_mem GameRow.name hgr)
        rw [List.find?_cons_of_neg]
        · exact find_name_of_nodup rest hnd2 g hgr
        · simp [hne]

/-- Clone parent of a game name as recorded in the games table. -/
def cloneOf (games : List GameRow) (n : String) : Option String :=
  (games.find? (fun g => g.name = n)).bind (fun g => g.clone_of)

lemma triple_clone (db : DBState)
    (hnd : (db.games.map GameRow.name).Nodup)
    {t : String × Nat × String} (ht : t ∈ DBWriter.get_roms_from_parents db) :
    cloneOf db.games t.1 = some t.2.2 := by
  have ht' : (t.1, t.2.1, t.2.2) ∈ DBWriter.get_roms_from_parents db := ht
  obtain ⟨gr, _, _, _, g, hg, hc1, hc2⟩ := (mem_triples db t.1 t.2.1 t.2.2).mp ht'
  unfold cloneOf
  rw [← hc1, find_name_of_nodup db.games hnd g hg]
  exact hc2

lemma foldInsert_mem {α β : Type} (mk : α → β) (ok : List β → β → Bool) :
    ∀ (l : List α) (init : List β) (r : β),
      r ∈ foldInsert mk ok init l → r ∈ init ∨ ∃ x ∈ l, r = mk x
  | [], init, r, h => Or.inl h
  | x :: xs, init, r, h => by
      unfold foldInsert at h
      rw [List.foldl_cons] at h
      by_cases hok : ok init (mk x) = true
      · rw [if_pos hok] at h
        rcases foldInsert_mem mk ok xs (init ++ [mk x]) r h with h1 | h2
        · rcases List.mem_append.mp h1 with h3 | h4
          · exact Or.inl h3
          · exact Or.inr ⟨x, List.mem_cons_self _ _,
              (List.mem_singleton.mp h4)⟩
        · obtain ⟨y, hy, hr⟩ := h2
          exact Or.inr ⟨y, List.mem_cons_of_mem _ hy, hr⟩
      · rw [if_neg hok] at h
        rcases foldInsert_mem mk ok xs init r h with h1 | h2
        · exact Or.inl h1
        · obtain ⟨y, hy, hr⟩ := h2
          exact Or.inr ⟨y, List.mem_cons_of_mem _ hy, hr⟩

lemma foldInsert_pred {α β : Type} (P : β → Prop) (mk : α → β)
    (ok : List β → β → Bool) (l : List α) (init : List β)
    (hinit : ∀ r ∈ init, P r) (hmk : ∀ x, P (mk x)) :
    ∀ r ∈ foldInsert mk ok init l, P r := by
  intro r hr
  rcases foldInsert_mem mk ok l init r hr with h1 | h2
  · exact hinit r h1
  · obtain ⟨x, _, hr2⟩ := h2
    exact hr2 ▸ hmk x

lemma nodup_append_singleton {α : Type} {l : List α} {a : α}
    (h : l.Nodup) (ha : a ∉ l) : (l ++ [a]).Nodup := by
  simp [List.nodup_append, h, ha]

lemma foldInsert_games_nodup :
    ∀ (l : List (String × Game)) (init : List GameRow),
      (init.map GameRow.name).Nodup →
      ((foldInsert (fun kv => mkGameRow kv.2) sqliteOps.gameOk init l).map
        GameRow.name).Nodup
  | [], init, h => h
  | x :: xs, init, h => by
      unfold foldInsert
      rw [List.foldl_cons]
      by_cases hok : sqliteOps.gameOk init (mkGameRow x.2) = true
      · rw [if_pos hok]
        have hnotin : (mkGameRow x.2).name ∉ init.map GameRow.name := by
          have hany : init.any
              (fun r => r.name = (mkGameRow x.2).name) = false := by
            rcases hb : init.any (fun r => r.name = (mkGameRow x.2).name) with
              _ | _
            · rfl
            · exfalso
              have : sqliteOps.gameOk init (mkGameRow x.2) = false := by
                simp [sqliteOps, hb]
              rw [this] at hok
              exact Bool.noConfusion hok
          intro hmem
          obtain ⟨r, hr, hname⟩ := List.mem_map.mp hmem
          have := List.any_eq_false.mp hany r hr
          simp [hname] at this
        have h2 : ((init ++ [mkGameRow x.2]).map GameRow.name).Nodup := by
          rw [List.map_append, List.map_singleton]
          exact nodup_append_singleton h hnotin
        exact foldInsert_games_nodup xs (init ++ [mkGameRow x.2]) h2
      · rw [if_neg hok]
        exact foldInsert_games_nodup xs init h

lemma write_buffer_ok_elim (ops : TxOps) (st st1 : WriterState)
    (h : DBWriter.write_buffer ops st = Except.ok st1) :
    List.foldlM (romInsertStep ops) st.db.roms st.buffer.roms =
      Except.ok st1.db.roms ∧
    st1.db.games = foldInsert (fun kv => mkGameRow kv.2) ops.gameOk
      st.db.games st.buffer.games ∧
    st1.db.game_roms = List.foldl
      (fun acc kv =>
        foldInsert (fun idn => ⟨kv.1, idn.1, idn.2, none⟩) ops.gameRomOk
          acc kv.2)
      st.db.game_roms st.buffer.game_roms ∧
    st1.buffer.roms = [] ∧
    st1.buffer.ids = st.buffer.ids ∧
    st1.ids = st.ids ∧
    st1.buffer_size = st.buffer_size := by
  simp only [DBWriter.write_buffer] at h
  rcases hres : List.foldlM (romInsertStep ops) st.db.roms st.buffer.roms with
    e2 | roms2
  · simp only [hres] at h
    exact Except.noConfusion h
  · simp only [hres] at h
    injection h with h2
    subst h2
    exact ⟨rfl, rfl, rfl, rfl, rfl, rfl, rfl⟩

lemma write_buffer_games_nodup (st st1 : WriterState)
    (h : DBWriter.write_buffer sqliteOps st = Except.ok st1)
    (hnd : (st.db.games.map GameRow.name).Nodup) :
    (st1.db.games.map GameRow.name).Nodup := by
  rw [(write_buffer_ok_elim sqliteOps st st1 h).2.1]
  exact foldInsert_games_nodup st.buffer.games st.db.games hnd

lemma write_buffer_parent_none (ops : TxOps) (st st1 : WriterState)
    (h : DBWriter.write_buffer ops st = Except.ok st1)
    (hpre : ∀ r ∈ st.db.game_roms, r.parent = none) :
    ∀ r ∈ st1.db.game_roms, r.parent = none := by
  rw [(write_buffer_ok_elim ops st st1 h).2.2.1]
  have haux : ∀ (l : List (String × List (Nat × String)))
      (init : List GameRomRow), (∀ r ∈ init, r.parent = none) →
      ∀ r ∈ List.foldl
        (fun acc kv =>
          foldInsert (fun idn => ⟨kv.1, idn.1, idn.2, none⟩) ops.gameRomOk
            acc kv.2)
        init l, r.parent = none := by
    intro l
    induction l with
    | nil => intro init hinit; exact hinit
    | cons kv rest ih =>
        intro init hinit
        rw [List.foldl_cons]
        exact ih _ (foldInsert_pred (fun r : GameRomRow => r.parent = none)
          (fun idn => (⟨kv.1, idn.1, idn.2, none⟩ : GameRomRow))
          ops.gameRomOk kv.2 init hinit (fun _ => rfl))
  exact haux st.buffer.game_roms st.db.game_roms hpre

/-- C4.  Parent back-fill: after finish(), over a store whose games names
are unique (the games primary key) and whose game_roms rows have not yet
been back-filled, a game_roms row of a game C carries parent = P exactly
when C's clone_of in the games table equals P and P itself has a game_roms
row with the same rom_id; in particular every row with a non-null parent P
has a corresponding row (P, rom_id, _) at commit time. -/
theorem c4_parent_backfill (st st' : WriterState)
    (hnodup : (st.db.games.map GameRow.name).Nodup)
    (hnone : ∀ r ∈ st.db.game_roms, r.parent = none)
    (hfin : DBWriter.finish st = Except.ok st') :
    ∀ r ∈ st'.db.game_roms, ∀ p : String,
      r.parent = some p ↔
        (cloneOf st'.db.games r.game_name = some p ∧
         ∃ r2 ∈ st'.db.game_roms, r2.game_name = p ∧ r2.rom_id = r.rom_id) := by
  unfold DBWriter.finish at hfin
  rcases hwb : DBWriter.write_buffer sqliteOps st with e1 | st1
  · rw [hwb] at hfin
    exact Except.noConfusion hfin
  · rw [hwb] at hfin
    injection hfin with h2
    subst h2
    have hnd1 : (st1.db.games.map GameRow.name).Nodup :=
      write_buffer_games_nodup st st1 hwb hnodup
    have hnone1 : ∀ r ∈ st1.db.game_roms, r.parent = none :=
      write_buffer_parent_none sqliteOps st st1 hwb hnone
    intro r hr p
    have hr2 : r ∈ List.foldl applyParentUpdate st1.db.game_roms
        (DBWriter.get_roms_from_parents st1.db) := hr
    rw [backfill_eq_map] at hr2
    obtain ⟨r0, hr0, hreq⟩ := List.mem_map.mp hr2
    have hp0 : r0.parent = none := hnone1 r0 hr0
    subst hreq
    show updFn (DBWriter.get_roms_from_parents st1.db) r0.game_name
        r0.rom_id r0.parent = some p ↔
      (cloneOf st1.db.games r0.game_name = some p ∧
       ∃ r2 ∈ List.foldl applyParentUpdate st1.db.game_roms
         (DBWriter.get_roms_from_parents st1.db),
         r2.game_name = p ∧ r2.rom_id = r0.rom_id)
    rw [hp0, backfill_eq_map]
    constructor
    · intro hpar
      have hex : ∃ t ∈ DBWriter.get_roms_from_parents st1.db,
          r0.game_name = t.1 ∧ r0.rom_id = t.2.1 := by
        by_contra hno
        push_neg at hno
        rw [updFn_no_match _ _ _ _
          (fun t ht hcc => (hno t ht hcc.1) hcc.2)] at hpar
        exact Option.noConfusion hpar
      obtain ⟨t0, ht0, hteq1, hteq2⟩ := hex
      have hclone : cloneOf st1.db.games t0.1 = some t0.2.2 :=
        triple_clone st1.db hnd1 ht0
      have huni : ∀ t ∈ DBWriter.get_roms_from_parents st1.db,
          r0.game_name = t.1 → r0.rom_id = t.2.1 → t.2.2 = t0.2.2 := by
        intro t ht h1 h2
        have hc2 := triple_clone st1.db hnd1 ht
        rw [← h1, hteq1, hclone] at hc2
        exact (Option.some.inj hc2).symm
      rw [updFn_match _ _ _ _ t0.2.2 ⟨t0, ht0, hteq1, hteq2⟩ huni] at hpar
      injection hpar with hpp
      obtain ⟨gr, hgrmem, hgrname, hgrid, g, hgmem, hgname, hgclone⟩ :=
        (mem_triples st1.db t0.1 t0.2.1 t0.2.2).mp ht0
      constructor
      · rw [hteq1, hclone, hpp]
      · refine ⟨{ gr with parent := (updFn
            (DBWriter.get_roms_from_parents st1.db) gr.game_name gr.rom_id
            gr.parent) }, List.mem_map_of_mem _ hgrmem, ?_, ?_⟩
        · show gr.game_name = p
          rw [hgrname, hpp]
        · show gr.rom_id = r0.rom_id
          rw [hgrid, hteq2]
    · rintro ⟨hclone2, r2, hr2mem, hr2name, hr2id⟩
      obtain ⟨g, hgmem, hgname, hgclone⟩ :
          ∃ g ∈ st1.db.games, g.name = r0.game_name ∧ g.clone_of = some p := by
        unfold cloneOf at hclone2
        rcases hfind : st1.db.games.find? (fun x => x.name = r0.game_name) with
          _ | g
        · rw [hfind] at hclone2
          exact Option.noConfusion hclone2
        · rw [hfind] at hclone2
          refine ⟨g, List.mem_of_find?_eq_some hfind, ?_, hclone2⟩
          have := List.find?_some hfind
          simpa using this
      obtain ⟨r2pre, hpre2, hr2eq⟩ := List.mem_map.mp hr2mem
      subst hr2eq
      have hr2name' : r2pre.game_name = p := hr2name
      have hr2id' : r2pre.rom_id = r0.rom_id := hr2id
      have htr : (r0.game_name, r0.rom_id, p) ∈
          DBWriter.get_roms_from_parents st1.db :=
        (mem_triples st1.db r0.game_name r0.rom_id p).mpr
          ⟨r2pre, hpre2, hr2name', hr2id', g, hgmem, hgname, hgclone⟩
      have huni : ∀ t ∈ DBWriter.get_roms_from_parents st1.db,
          r0.game_name = t.1 → r0.rom_id = t.2.1 → t.2.2 = p := by
        intro t ht h1 h2
        have hc2 := triple_clone st1.db hnd1 ht
        rw [← h1, hclone2] at hc2
        exact (Option.some.inj hc2).symm
      rw [updFn_match _ _ _ _ p
        ⟨(r0.game_name, r0.rom_id, p), htr, rfl, rfl⟩ huni]

/-- Pre-finish store: pacman owns rom 0, its clone pacmanjp also references
rom 0, parents not yet back-filled. -/
def c4PreSt : WriterState :=
  { ids := IdsCounter.new
    buffer := Buffer.new
    db := { roms := [⟨0, some "aa", none, none, 8, none⟩]
            games := [⟨"pacman", none, none, none, none, none, none, none⟩,
                      ⟨"pacmanjp", some "pacman", none, none, none, none,
                        none, none⟩]
            game_roms := [⟨"pacman", 0, "pac.rom", none⟩,
                          ⟨"pacmanjp", 0, "pac_j.rom", none⟩]
            samples := []
            devices := [] }
    buffer_size := 5000 }

/-- Store after finish() over c4PreSt. -/
def c4PostSt : WriterState :=
  match DBWriter.finish c4PreSt with
  | Except.ok s => s
  | Except.error _ => c4PreSt

/-- Witness for c4_parent_backfill at the concrete clone row. -/
theorem c4_witness :
    (⟨"pacmanjp", 0, "pac_j.rom", some "pacman"⟩ : GameRomRow).parent =
        some "pacman" ↔
      (cloneOf c4PostSt.db.games
          (⟨"pacmanjp", 0, "pac_j.rom", some "pacman"⟩ : GameRomRow).game_name =
        some "pacman" ∧
       ∃ r2 ∈ c4PostSt.db.game_roms, r2.game_name = "pacman" ∧
         r2.rom_id =
           (⟨"pacmanjp", 0, "pac_j.rom", some "pacman"⟩ : GameRomRow).rom_id) :=
  c4_parent_backfill c4PreSt c4PostSt (by decide) (by decide) (by rfl)
    ⟨"pacmanjp", 0, "pac_j.rom", some "pacman"⟩ (by decide) "pacman"

lemma dbLookupId_none_iff (db : DBState) (f : DataFile) :
    dbLookupId db f = none ↔ ∀ row ∈ db.roms, ¬ (row.tuple = f.key) := by
  unfold dbLookupId
  rcases hf : db.roms.find? (fun r => r.tuple = f.key) with _ | row
  · constructor
    · intro _ r hr
      have := List.find?_eq_none.mp hf r hr
      simpa using this
    · intro _
      rw [hf]
      rfl
  · constructor
    · intro hcontra
      rw [hf] at hcontra
      exact Option.noConfusion hcontra
    · intro hall
      exfalso
      have hmem := List.mem_of_find?_eq_some hf
      have hpred := List.find?_some hf
      exact hall row hmem (by simpa using hpred)

lemma dbLookupId_some (db : DBState) (f : DataFile) (i : Nat)
    (h : dbLookupId db f = some i) :
    ∃ row ∈ db.roms, row.tuple = f.key ∧ row.id = i := by
  unfold dbLookupId at h
  rcases hf : db.roms.find? (fun r => r.tuple = f.key) with _ | row
  · rw [hf] at h
    exact Option.noConfusion h
  · rw [hf] at h
    injection h with h2
    exact ⟨row, List.mem_of_find?_eq_some hf,
      by simpa using List.find?_some hf, h2⟩

lemma union_fst (db : DBState) (b : Buffer) :
    (unionOf db b).map Prod.fst =
      db.roms.map RomRow.tuple ++ b.roms.map (fun p => p.1.key) := by
  unfold unionOf
  rw [List.map_append, List.map_map, List.map_map]
  rfl

lemma union_snd (db : DBState) (b : Buffer) :
    (unionOf db b).map Prod.snd =
      db.roms.map RomRow.id ++ b.roms.map Prod.snd := by
  unfold unionOf
  rw [List.map_append, List.map_map, List.map_map]
  rfl

lemma find?_fst_mem :
    ∀ (l : List (DigestTuple × Nat)) (k : DigestTuple),
      k ∈ l.map Prod.fst →
      ∃ q, l.find? (fun q => q.1 = k) = some q ∧ q.1 = k ∧ q ∈ l
  | [], k, h => absurd h (by simp)
  | q0 :: l, k, h => by
      by_cases hq : q0.1 = k
      · exact ⟨q0, by rw [List.find?_cons_of_pos _ (by simpa using hq)], hq,
          List.mem_cons_self _ _⟩
      · have h2 : k ∈ l.map Prod.fst := by
          rcases List.mem_map.mp h with ⟨q1, hq1, hk⟩
          rcases List.mem_cons.mp hq1 with rfl | hq1tl
          · exact absurd hk hq
          · exact hk ▸ List.mem_map_of_mem Prod.fst hq1tl
        obtain ⟨q, hfind, hfst, hmem⟩ := find?_fst_mem l k h2
        exact ⟨q, by rw [List.find?_cons_of_neg _ (by simpa using hq)]; exact hfind,
          hfst, List.mem_cons_of_mem _ hmem⟩

lemma nodup_snd_inj {l : List (DigestTuple × Nat)}
    (h : (l.map Prod.snd).Nodup) {a b : DigestTuple × Nat}
    (ha : a ∈ l) (hb : b ∈ l) (hsnd : a.2 = b.2) : a = b := by
  by_cases hab : a = b
  · exact hab
  · exfalso
    have hpw : l.Pairwise (fun x y => x.2 ≠ y.2) := List.pairwise_map.mp h
    exact (hpw.forall (fun x y hxy => fun he => hxy he.symm) ha hb hab) hsnd

lemma key_not_mem_union (db : DBState) (b : Buffer) (f : DataFile)
    (hdb : dbLookupId db f = none)
    (hbuf : b.roms.find? (fun p => p.1.key = f.key) = none) :
    f.key ∉ (unionOf db b).map Prod.fst := by
  rw [union_fst]
  intro hmem
  rcases List.mem_append.mp hmem with h1 | h2
  · rcases List.mem_map.mp h1 with ⟨row, hrow, hk⟩
    exact (dbLookupId_none_iff db f).mp hdb row hrow hk
  · rcases List.mem_map.mp h2 with ⟨p, hp, hk⟩
    have := List.find?_eq_none.mp hbuf p hp
    simp [hk] at this

lemma addRoms_inv (db : DBState) :
    ∀ (roms : List DataFile) (acc : List (Nat × DataFile)) (b : Buffer),
      WFparts db b →
      (∀ f ∈ roms, dbLookupId db f = none) →
      b.ids.rom + roms.length < 4294967296 →
      WFparts db (List.foldl addRomsStep (acc, b) roms).2 ∧
      (List.foldl addRomsStep (acc, b) roms).2.ids.rom ≤
        b.ids.rom + roms.length ∧
      (∀ k, k ∈ (unionOf db b).map Prod.fst →
        k ∈ (unionOf db (List.foldl addRomsStep (acc, b) roms).2).map
          Prod.fst) ∧
      (∀ f ∈ roms, f.key ∈
        (unionOf db (List.foldl addRomsStep (acc, b) roms).2).map Prod.fst)
  | [], acc, b, hWF, _, _ =>
      ⟨hWF, Nat.le_add_right _ _, fun _ hk => hk,
       fun f hf => absurd hf (List.not_mem_nil f)⟩
  | r :: rs, acc, b, hWF, hnf, hbound => by
      rw [List.foldl_cons]
      simp only [List.length_cons] at hbound
      rcases hfind : b.roms.find? (fun p => p.1.key = r.key) with _ | p
      · -- fresh digest: allocate the next id
        have hstep : addRomsStep (acc, b) r =
            (acc ++ [(b.ids.rom, r)],
             { b with ids := { b.ids with rom := (b.ids.rom + 1) % 4294967296 },
                      roms := b.roms ++ [(r, b.ids.rom)] }) := by
          simp [addRomsStep, hfind, IdsCounter.get_next_rom]
        rw [hstep]
        have hkey : r.key ∉ (unionOf db b).map Prod.fst :=
          key_not_mem_union db b r (hnf r (List.mem_cons_self _ _)) hfind
        have hu : unionOf db
            { b with ids := { b.ids with rom := (b.ids.rom + 1) % 4294967296 },
                     roms := b.roms ++ [(r, b.ids.rom)] } =
            unionOf db b ++ [(r.key, b.ids.rom)] := by
          unfold unionOf
          rw [List.map_append, ← List.append_assoc]
          rfl
        have hcnt1 : (b.ids.rom + 1) % 4294967296 = b.ids.rom + 1 :=
          Nat.mod_eq_of_lt (by omega)
        obtain ⟨hk, hv, hlt⟩ := hWF
        have hWF1 : WFparts db
            { b with ids := { b.ids with rom := (b.ids.rom + 1) % 4294967296 },
                     roms := b.roms ++ [(r, b.ids.rom)] } := by
          refine ⟨?_, ?_, ?_⟩
          · rw [hu, List.map_append]
            exact nodup_append_singleton hk (by simpa using hkey)
          · rw [hu, List.map_append]
            refine nodup_append_singleton hv ?_
            intro hmem
            rcases List.mem_map.mp hmem with ⟨q, hq, hq2⟩
            have := hlt q hq
            simp only [List.mem_singleton] at hq2
            omega
          · intro q hq
            show q.2 < (b.ids.rom + 1) % 4294967296
            rw [hcnt1]
            rw [hu] at hq
            rcases List.mem_append.mp hq with h1 | h2
            · exact Nat.lt_succ_of_lt (hlt q h1)
            · rw [List.mem_singleton.mp h2]
              exact Nat.lt_succ_self _
        have hbound1 :
            ({ b with ids := { b.ids with rom := (b.ids.rom + 1) % 4294967296 },
                      roms := b.roms ++ [(r, b.ids.rom)] } : Buffer).ids.rom +
              rs.length < 4294967296 := by
          show (b.ids.rom + 1) % 4294967296 + rs.length < 4294967296
          rw [hcnt1]
          omega
        obtain ⟨ihWF, ihcnt, ihmono, ihcov⟩ := addRoms_inv db rs
          (acc ++ [(b.ids.rom, r)])
          { b with ids := { b.ids with rom := (b.ids.rom + 1) % 4294967296 },
                   roms := b.roms ++ [(r, b.ids.rom)] }
          hWF1 (fun f hf => hnf f (List.mem_cons_of_mem _ hf)) hbound1
        refine ⟨ihWF, ?_, ?_, ?_⟩
        · rw [List.length_cons]
          have hd : ({ b with
              ids := { b.ids with rom := (b.ids.rom + 1) % 4294967296 },
              roms := b.roms ++ [(r, b.ids.rom)] } : Buffer).ids.rom =
              b.ids.rom + 1 := hcnt1
          rw [hd] at ihcnt
          omega
        · intro k hk2
          apply ihmono
          rw [hu, List.map_append]
          exact List.mem_append_left _ hk2
        · intro f hf
          rcases List.mem_cons.mp hf with rfl | htl
          · apply ihmono
            rw [hu, List.map_append]
            apply List.mem_append_right
            exact List.mem_singleton.mpr rfl
          · exact ihcov f htl
      · -- digest already buffered: reuse, buffer unchanged
        have hstep : addRomsStep (acc, b) r = (acc ++ [(p.2, r)], b) := by
          simp [addRomsStep, hfind]
        rw [hstep]
        obtain ⟨ihWF, ihcnt, ihmono, ihcov⟩ := addRoms_inv db rs
          (acc ++ [(p.2, r)]) b hWF
          (fun f hf => hnf f (List.mem_cons_of_mem _ hf)) (by omega)
        refine ⟨ihWF, ?_, ihmono, ?_⟩
        · rw [List.length_cons]
          omega
        · intro f hf
          rcases List.mem_cons.mp hf with rfl | htl
          · apply ihmono
            rw [union_fst]
            apply List.mem_append_right
            have hp := List.find?_some hfind
            have hpmem := List.mem_of_find?_eq_some hfind
            have hp2 : p.1.key = f.key := by simpa using hp
            exact hp2 ▸ List.mem_map_of_mem (fun q => q.1.key) hpmem
          · exact ihcov f htl

lemma get_rom_ids_inv (db : DBState) (buf : Buffer) (roms : List DataFile)
    (hWF : WFparts db buf)
    (hbound : buf.ids.rom + roms.length < 4294967296) :
    WFparts db (DBWriter.get_rom_ids db buf roms).2 ∧
    (DBWriter.get_rom_ids db buf roms).2.ids.rom ≤
      buf.ids.rom + roms.length ∧
    (∀ k, k ∈ (unionOf db buf).map Prod.fst →
      k ∈ (unionOf db (DBWriter.get_rom_ids db buf roms).2).map Prod.fst) ∧
    (∀ f ∈ roms, f.key ∈
      (unionOf db (DBWriter.get_rom_ids db buf roms).2).map Prod.fst) := by
  have hres : (DBWriter.get_rom_ids db buf roms).2 =
      (List.foldl addRomsStep ([], buf)
        (roms.filter (fun f => (dbLookupId db f).isNone))).2 := rfl
  have hnf : ∀ f ∈ roms.filter (fun f => (dbLookupId db f).isNone),
      dbLookupId db f = none := by
    intro f hf
    have := List.of_mem_filter hf
    simpa [Option.isNone_iff_eq_none] using this
  have hlen : (roms.filter (fun f => (dbLookupId db f).isNone)).length ≤
      roms.length := List.length_filter_le _ _
  obtain ⟨ihWF, ihcnt, ihmono, ihcov⟩ := addRoms_inv db
    (roms.filter (fun f => (dbLookupId db f).isNone)) [] buf hWF hnf
    (by omega)
  rw [hres]
  refine ⟨ihWF, by omega, ihmono, ?_⟩
  intro f hf
  rcases hl : dbLookupId db f with _ | i
  · exact ihcov f (List.mem_filter.mpr ⟨hf, by simp [hl]⟩)
  · obtain ⟨row, hrow, hkey, _⟩ := dbLookupId_some db f i hl
    apply ihmono
    rw [union_fst]
    apply List.mem_append_left
    exact hkey ▸ List.mem_map_of_mem RomRow.tuple hrow

lemma add_sample_branch_fields (b : Buffer) (g : Game) (ss : List String) :
    (match g.sample_of with
     | some sp => b.add_sample_pack sp ss
     | none => b).roms = b.roms ∧
    (match g.sample_of with
     | some sp => b.add_sample_pack sp ss
     | none => b).ids = b.ids := by
  rcases g.sample_of with _ | sp
  · exact ⟨rfl, rfl⟩
  · show ((b.add_sample_pack sp ss).roms = b.roms) ∧
      ((b.add_sample_pack sp ss).ids = b.ids)
    unfold Buffer.add_sample_pack
    split_ifs <;> exact ⟨rfl, rfl⟩

lemma WFparts_congr (db : DBState) {b1 b2 : Buffer}
    (hr : b2.roms = b1.roms) (hi : b2.ids = b1.ids)
    (h : WFparts db b1) : WFparts db b2 := by
  unfold WFparts unionOf at h ⊢
  rw [hr, hi]
  exact h

lemma union_buffer_congr (db : DBState) {b1 b2 : Buffer}
    (hr : b2.roms = b1.roms) : unionOf db b2 = unionOf db b1 := by
  unfold unionOf
  rw [hr]

lemma write_buffer_session (st : WriterState)
    (hvals : ((unionOf st.db st.buffer).map Prod.snd).Nodup) :
    ∃ st1, DBWriter.write_buffer sqliteOps st = Except.ok st1 ∧
      st1.db.roms = st.db.roms ++
        st.buffer.roms.map (fun fr => mkRomRow fr.2 fr.1) ∧
      st1.buffer.roms = [] ∧ st1.buffer.ids = st.buffer.ids := by
  rw [union_snd] at hvals
  have hfold : ∀ (l : List (DataFile × Nat)) (init : List RomRow),
      ((init.map RomRow.id) ++ (l.map Prod.snd)).Nodup →
      List.foldlM (romInsertStep sqliteOps) init l =
        Except.ok (init ++ l.map (fun fr => mkRomRow fr.2 fr.1)) := by
    intro l
    induction l with
    | nil =>
        intro init _
        simp only [List.foldlM_nil, List.map_nil, List.append_nil]
        rfl
    | cons fr rest ih =>
        intro init hnd
        have hnotin : fr.2 ∉ init.map RomRow.id := by
          rw [List.nodup_append] at hnd
          intro hmem
          exact hnd.2.2 hmem (List.mem_cons_self _ _)
        have hok : sqliteOps.romOk init (mkRomRow fr.2 fr.1) = true := by
          have hany : init.any (fun r => r.id = (mkRomRow fr.2 fr.1).id) =
              false := by
            rw [List.any_eq_false]
            intro r hr
            simp only [decide_eq_true_eq]
            intro he
            have he2 : r.id = fr.2 := he
            exact hnotin (he2 ▸ List.mem_map_of_mem RomRow.id hr)
          simp [sqliteOps, hany]
        have h1 : romInsertStep sqliteOps init fr =
            Except.ok (init ++ [mkRomRow fr.2 fr.1]) := by
          simp [romInsertStep, hok]
        rw [List.foldlM_cons, h1]
        show List.foldlM (romInsertStep sqliteOps)
          (init ++ [mkRomRow fr.2 fr.1]) rest = _
        rw [ih (init ++ [mkRomRow fr.2 fr.1]) ?hnd2]
        · simp
        case hnd2 =>
          rw [List.map_append]
          have : (init.map RomRow.id ++ [fr.2]) ++ rest.map Prod.snd =
              init.map RomRow.id ++ (fr.2 :: rest.map Prod.snd) := by
            rw [List.append_assoc]
            rfl
          rw [show ([mkRomRow fr.2 fr.1].map RomRow.id) = [fr.2] from rfl, this]
          exact hnd
  simp only [DBWriter.write_buffer]
  rw [hfold st.buffer.roms st.db.roms hvals]
  exact ⟨_, rfl, rfl, rfl, rfl⟩

lemma union_after_flush (st st1 : WriterState)
    (h1 : st1.db.roms = st.db.roms ++
      st.buffer.roms.map (fun fr => mkRomRow fr.2 fr.1))
    (h2 : st1.buffer.roms = []) :
    unionPairs st1 = unionPairs st := by
  unfold unionPairs unionOf
  rw [h1, h2, List.map_append, List.map_map, List.map_nil, List.append_nil]
  rfl

lemma add_sample_pack_fields (b : Buffer) (sp : String) (ss : List String) :
    (b.add_sample_pack sp ss).roms = b.roms ∧
    (b.add_sample_pack sp ss).ids = b.ids := by
  unfold Buffer.add_sample_pack
  split_ifs <;> exact ⟨rfl, rfl⟩

lemma WF_of_union_eq {st1 st2 : WriterState}
    (hu : unionPairs st2 = unionPairs st1)
    (hi : st2.buffer.ids.rom = st1.buffer.ids.rom)
    (h : WF st1) : WF st2 := by
  unfold WF WFparts at h ⊢
  unfold unionPairs at hu
  rw [hu, hi]
  exact h

lemma tail_session (stMid : WriterState) (e : Entry) (bufF : Buffer)
    (hWF : WF stMid)
    (hbound : stMid.buffer.ids.rom + e.roms.length < 4294967296)
    (hroms : bufF.roms =
      (DBWriter.get_rom_ids stMid.db stMid.buffer e.roms).2.roms)
    (hids : bufF.ids =
      (DBWriter.get_rom_ids stMid.db stMid.buffer e.roms).2.ids) :
    WF { stMid with buffer := bufF } ∧
    bufF.ids.rom ≤ stMid.buffer.ids.rom + e.roms.length ∧
    (∀ k, k ∈ (unionPairs stMid).map Prod.fst →
      k ∈ (unionPairs { stMid with buffer := bufF }).map Prod.fst) ∧
    (∀ f ∈ e.roms, f.key ∈
      (unionPairs { stMid with buffer := bufF }).map Prod.fst) := by
  obtain ⟨tWF, tcnt, tmono, tcov⟩ :=
    get_rom_ids_inv stMid.db stMid.buffer e.roms hWF hbound
  have hWFf : WFparts stMid.db bufF := WFparts_congr stMid.db hroms hids tWF
  have huf : unionOf stMid.db bufF =
      unionOf stMid.db (DBWriter.get_rom_ids stMid.db stMid.buffer e.roms).2 :=
    union_buffer_congr stMid.db hroms
  refine ⟨hWFf, ?_, ?_, ?_⟩
  · rw [hids]
    exact tcnt
  · intro k hk
    show k ∈ (unionOf stMid.db bufF).map Prod.fst
    rw [huf]
    exact tmono k hk
  · intro f hf
    show f.key ∈ (unionOf stMid.db bufF).map Prod.fst
    rw [huf]
    exact tcov f hf

lemma on_new_entry_session (st : WriterState) (e : Entry)
    (hWF : WF st)
    (hbound : st.buffer.ids.rom + e.roms.length < 4294967296) :
    ∃ st1, DBWriter.on_new_entry st e = Except.ok st1 ∧ WF st1 ∧
      st1.buffer.ids.rom ≤ st.buffer.ids.rom + e.roms.length ∧
      (∀ k, k ∈ (unionPairs st).map Prod.fst →
        k ∈ (unionPairs st1).map Prod.fst) ∧
      (∀ f ∈ e.roms, f.key ∈ (unionPairs st1).map Prod.fst) := by
  have hWF1 : WFparts st.db (st.buffer.add_game e.game.name e.game) :=
    WFparts_congr st.db rfl rfl hWF
  by_cases hc : st.buffer_size ≤
      (st.buffer.add_game e.game.name e.game).len % 65536
  · -- flush happens inside add_game
    obtain ⟨st2, hwb, hroms2, hbufroms, hbufids⟩ := write_buffer_session
      { st with buffer := st.buffer.add_game e.game.name e.game } hWF1.2.1
    have hu2 : unionPairs st2 = unionPairs st :=
      union_after_flush _ _ hroms2 hbufroms
    have hid2 : st2.buffer.ids.rom = st.buffer.ids.rom := by
      rw [hbufids]
      rfl
    have hWF2 : WF st2 := WF_of_union_eq hu2 hid2 hWF
    have hbound2 : st2.buffer.ids.rom + e.roms.length < 4294967296 := by
      rw [hid2]
      exact hbound
    rcases hso : e.game.sample_of with _ | sp
    · obtain ⟨fWF, fcnt, fmono, fcov⟩ := tail_session st2 e
        ((DBWriter.get_rom_ids st2.db st2.buffer e.roms).2.add_roms_for_game
          e.game.name (DBWriter.get_rom_ids st2.db st2.buffer e.roms).1)
        hWF2 hbound2 rfl rfl
      refine ⟨_, ?_, fWF, ?_, ?_, fcov⟩
      · simp only [DBWriter.on_new_entry, hso]
        rw [if_pos hc, hwb]
      · show ((DBWriter.get_rom_ids st2.db st2.buffer
            e.roms).2.add_roms_for_game e.game.name
            (DBWriter.get_rom_ids st2.db st2.buffer e.roms).1).ids.rom ≤ _
        rw [← hid2]
        exact fcnt
      · intro k hk
        apply fmono
        rw [hu2]
        exact hk
    · obtain ⟨fWF, fcnt, fmono, fcov⟩ := tail_session st2 e
        (((DBWriter.get_rom_ids st2.db st2.buffer e.roms).2.add_roms_for_game
            e.game.name
            (DBWriter.get_rom_ids st2.db st2.buffer
              e.roms).1).add_sample_pack sp e.samples)
        hWF2 hbound2
        ((add_sample_pack_fields _ sp e.samples).1)
        ((add_sample_pack_fields _ sp e.samples).2)
      refine ⟨_, ?_, fWF, ?_, ?_, fcov⟩
      · simp only [DBWriter.on_new_entry, hso]
        rw [if_pos hc, hwb]
      · show (((DBWriter.get_rom_ids st2.db st2.buffer
            e.roms).2.add_roms_for_game e.game.name
            (DBWriter.get_rom_ids st2.db st2.buffer
              e.roms).1).add_sample_pack sp e.samples).ids.rom ≤ _
        rw [← hid2]
        exact fcnt
      · intro k hk
        apply fmono
        rw [hu2]
        exact hk
  · -- no flush
    have hWFm : WF { st with buffer := st.buffer.add_game e.game.name e.game } :=
      hWF1
    have hboundm : ({ st with
        buffer := st.buffer.add_game e.game.name e.game } :
          WriterState).buffer.ids.rom + e.roms.length < 4294967296 := hbound
    have hum : unionPairs
        { st with buffer := st.buffer.add_game e.game.name e.game } =
        unionPairs st := union_buffer_congr st.db rfl
    rcases hso : e.game.sample_of with _ | sp
    · obtain ⟨fWF, fcnt, fmono, fcov⟩ := tail_session
        { st with buffer := st.buffer.add_game e.game.name e.game } e
        ((DBWriter.get_rom_ids st.db
            (st.buffer.add_game e.game.name e.game) e.roms).2.add_roms_for_game
          e.game.name
          (DBWriter.get_rom_ids st.db
            (st.buffer.add_game e.game.name e.game) e.roms).1)
        hWFm hboundm rfl rfl
      refine ⟨_, ?_, fWF, fcnt, ?_, fcov⟩
      · simp only [DBWriter.on_new_entry, hso]
        rw [if_neg hc]
      · intro k hk
        apply fmono
        rw [hum]
        exact hk
    · obtain ⟨fWF, fcnt, fmono, fcov⟩ := tail_session
        { st with buffer := st.buffer.add_game e.game.name e.game } e
        (((DBWriter.get_rom_ids st.db
              (st.buffer.add_game e.game.name e.game)
              e.roms).2.add_roms_for_game e.game.name
            (DBWriter.get_rom_ids st.db
              (st.buffer.add_game e.game.name e.game)
              e.roms).1).add_sample_pack sp e.samples)
        hWFm hboundm
        ((add_sample_pack_fields _ sp e.samples).1)
        ((add_sample_pack_fields _ sp e.samples).2)
      refine ⟨_, ?_, fWF, fcnt, ?_, fcov⟩
      · simp only [DBWriter.on_new_entry, hso]
        rw [if_neg hc]
      · intro k hk
        apply fmono
        rw [hum]
        exact hk

lemma runEntries_session :
    ∀ (entries : List Entry) (st : WriterState),
      WF st → st.buffer.ids.rom + totalRoms entries < 4294967296 →
      ∃ st1, runEntries st entries = Except.ok st1 ∧ WF st1 ∧
        st1.buffer.ids.rom ≤ st.buffer.ids.rom + totalRoms entries ∧
        (∀ k, k ∈ (unionPairs st).map Prod.fst →
          k ∈ (unionPairs st1).map Prod.fst) ∧
        (∀ f : DataFile, (∃ e ∈ entries, f ∈ e.roms) →
          f.key ∈ (unionPairs st1).map Prod.fst)
  | [], st, hWF, _ =>
      ⟨st, rfl, hWF, Nat.le_add_right _ _, fun _ hk => hk,
       fun f hf => absurd hf (by simp)⟩
  | e :: es, st, hWF, hbound => by
      have htot : totalRoms (e :: es) = e.roms.length + totalRoms es := by
        simp [totalRoms]
      rw [htot] at hbound
      obtain ⟨st1, hstep, hWF1, hcnt1, hmono1, hcov1⟩ :=
        on_new_entry_session st e hWF (by omega)
      obtain ⟨st2, hrun2, hWF2, hcnt2, hmono2, hcov2⟩ :=
        runEntries_session es st1 hWF1 (by omega)
      refine ⟨st2, ?_, hWF2, by rw [htot]; omega,
        fun k hk => hmono2 k (hmono1 k hk), ?_⟩
      · unfold runEntries
        rw [List.foldlM_cons, hstep]
        exact hrun2
      · intro f hf
        rcases hf with ⟨e0, he0, hfe⟩
        rcases List.mem_cons.mp he0 with rfl | htl
        · exact hmono2 _ (hcov1 f hfe)
        · exact hcov2 f ⟨e0, htl, hfe⟩

lemma finish_session (st : WriterState) (hWF : WF st) :
    ∃ st2, DBWriter.finish st = Except.ok st2 ∧
      unionPairs st2 = unionPairs st ∧ WF st2 := by
  obtain ⟨st1, hwb, hroms1, hbufroms, hbufids⟩ :=
    write_buffer_session st hWF.2.1
  have hu1 : unionPairs st1 = unionPairs st :=
    union_after_flush st st1 hroms1 hbufroms
  have hid1 : st1.buffer.ids.rom = st.buffer.ids.rom := by
    rw [hbufids]
  have hWF1 : WF st1 := WF_of_union_eq hu1 hid1 hWF
  have heq : DBWriter.finish st = Except.ok { st1 with db := { st1.db with
      game_roms := (DBWriter.get_roms_from_parents st1.db).foldl
        applyParentUpdate st1.db.game_roms } } := by
    unfold DBWriter.finish
    rw [hwb]
  exact ⟨_, heq, hu1, hWF1⟩

/-- C1.  Dedup soundness: over any ingest session (init, the entries in
order, finish) whose total rom count stays below 2^32, every ROM DataFile
reaching the writer has a resolved id in the final (digest tuple, id)
mapping; two DataFiles with identical declared digest tuples and equal size
resolve to the same id regardless of their logical names; and two DataFiles
with distinct declared digest triples are assigned distinct ids. -/
theorem c1_dedup_soundness (buffer_size : Nat) (entries : List Entry)
    (st : WriterState)
    (hbound : totalRoms entries < 4294967296)
    (hrun : runSession buffer_size entries = Except.ok st) :
    (∀ f : DataFile, (∃ e ∈ entries, f ∈ e.roms) →
      ∃ i, romIdOf st f = some i) ∧
    (∀ a b : DataFile, (∃ e ∈ entries, a ∈ e.roms) →
      (∃ e ∈ entries, b ∈ e.roms) → a.key = b.key →
      romIdOf st a = romIdOf st b) ∧
    (∀ a b : DataFile, (∃ e ∈ entries, a ∈ e.roms) →
      (∃ e ∈ entries, b ∈ e.roms) →
      (a.sha1, a.md5, a.crc) ≠ (b.sha1, b.md5, b.crc) →
      romIdOf st a ≠ romIdOf st b) := by
  have hWF0 : WF (initWriter buffer_size) :=
    ⟨List.nodup_nil, List.nodup_nil, fun q hq => absurd hq (List.not_mem_nil q)⟩
  obtain ⟨st1, hrun1, hWF1, _, _, hcov⟩ :=
    runEntries_session entries (initWriter buffer_size) hWF0
      (by show 0 + totalRoms entries < 4294967296; omega)
  have hfin : DBWriter.finish st1 = Except.ok st := by
    unfold runSession at hrun
    rw [hrun1] at hrun
    exact hrun
  obtain ⟨st2, hfin2, hu2, hWF2⟩ := finish_session st1 hWF1
  have hst : st2 = st := by
    rw [hfin] at hfin2
    injection hfin2 with h
    exact h.symm
  subst hst
  have hkeys : (unionPairs st2).map Prod.fst = (unionPairs st1).map Prod.fst := by
    rw [hu2]
  refine ⟨?_, ?_, ?_⟩
  · intro f hf
    have hk : f.key ∈ (unionPairs st2).map Prod.fst := by
      rw [hkeys]
      exact hcov f hf
    obtain ⟨q, hfind, _, _⟩ := find?_fst_mem (unionPairs st2) f.key hk
    refine ⟨q.2, ?_⟩
    unfold romIdOf
    rw [hfind]
    rfl
  · intro a b _ _ hab
    unfold romIdOf
    rw [hab]
  · intro a b ha hb hne hEq
    have hka : a.key ∈ (unionPairs st2).map Prod.fst := by
      rw [hkeys]
      exact hcov a ha
    have hkb : b.key ∈ (unionPairs st2).map Prod.fst := by
      rw [hkeys]
      exact hcov b hb
    obtain ⟨qa, hfinda, hfsta, hmema⟩ := find?_fst_mem (unionPairs st2) a.key hka
    obtain ⟨qb, hfindb, hfstb, hmemb⟩ := find?_fst_mem (unionPairs st2) b.key hkb
    have hva : romIdOf st2 a = some qa.2 := by
      unfold romIdOf
      rw [hfinda]
      rfl
    have hvb : romIdOf st2 b = some qb.2 := by
      unfold romIdOf
      rw [hfindb]
      rfl
    rw [hva, hvb] at hEq
    injection hEq with hv
    have hq : qa = qb := nodup_snd_inj hWF2.2.1 hmema hmemb hv
    have hkeq : a.key = b.key := by
      rw [← hfsta, hq, hfstb]
    unfold DataFile.key at hkeq
    injection hkeq with h1 h2 h3 h4
    exact hne (by rw [h1, h2, h3])

/-- Rom shared between two games under different local names. -/
def c1FileA : DataFile := ⟨"pac.rom", some "aa", none, none, 8, none⟩

/-- Same digest tuple as c1FileA, different logical name. -/
def c1FileB : DataFile := ⟨"mspac.rom", some "aa", none, none, 8, none⟩

/-- Rom with a distinct digest tuple. -/
def c1FileC : DataFile := ⟨"other.rom", some "bb", none, none, 4, none⟩

/-- First entry of the c1 witness session. -/
def c1Entry1 : Entry :=
  ⟨⟨"pacman", none, none, none, none, none, none, none⟩,
   [c1FileA, c1FileC], [], [], []⟩

/-- Second entry of the c1 witness session. -/
def c1Entry2 : Entry :=
  ⟨⟨"mspacman", none, none, none, none, none, none, none⟩,
   [c1FileB], [], [], []⟩

/-- Final state of the c1 witness session. -/
def c1St : WriterState :=
  match runSession 5000 [c1Entry1, c1Entry2] with
  | Except.ok s => s
  | Except.error _ => initWriter 5000

/-- Witness for c1_dedup_soundness at a concrete session: the two files
with equal digest tuples share an id across games, the file with a distinct
digest tuple gets a different id. -/
theorem c1_witness :
    romIdOf c1St c1FileA = romIdOf c1St c1FileB ∧
    romIdOf c1St c1FileA ≠ romIdOf c1St c1FileC := by
  obtain ⟨h1, h2, h3⟩ := c1_dedup_soundness 5000 [c1Entry1, c1Entry2] c1St
    (by decide) (by rfl)
  exact ⟨h2 c1FileA c1FileB ⟨c1Entry1, by decide, by decide⟩
           ⟨c1Entry2, by decide, by decide⟩ (by rfl),
         h3 c1FileA c1FileC ⟨c1Entry1, by decide, by decide⟩
           ⟨c1Entry1, by decide, by decide⟩ (by decide)⟩
